import Mathlib

/-!
Shallow embedding of the `YieldFarmingStrategy` Solidity contract
(staking/yield-reward ledger: pools, positions, accrual, deposit,
withdraw, emergency withdraw, rebalance hook, admin setters).

Modelling conventions:
* `uint256` values are modelled as `Nat`.  Solidity 0.8 checked
  arithmetic reverts on overflow/underflow; additions are modelled as
  plain `Nat` addition (a reverting execution leaves the state
  unchanged, so every invariant proved over the `Nat` model also holds
  for the checked model), and the subtractions in the contract are
  either guarded by an explicit `require` in the source or are `Nat`
  truncated subtraction at places the source guarantees cannot
  underflow.
* Division by zero reverts in Solidity 0.8 (Panic 0x12); `updatePool`
  is therefore `Option`-valued and yields `none` exactly when its
  reward computation would divide by `totalAllocPoint = 0`
  (`pool.totalStaked` is nonzero on that branch, so it is the only
  division hazard).
* Addresses (accounts and token contracts) are modelled as `Nat`,
  with `0` playing the role of the zero address.
* `block.number`, `block.timestamp`, `msg.sender` and the custody
  balance read by `safeRewardTransfer` are externally supplied inputs,
  bundled in `Env`.
* Token movements and emitted events are returned explicitly in the
  operation result.
-/

/-- `struct Position` of the contract. -/
structure Position where
  amount : Nat
  lastRewardBlock : Nat
  rewardDebt : Nat
  lockEndTime : Nat
  isActive : Bool
deriving Repr, DecidableEq

/-- Default (never-touched) position: Solidity mapping default. -/
def emptyPosition : Position :=
  { amount := 0, lastRewardBlock := 0, rewardDebt := 0, lockEndTime := 0, isActive := false }

/-- `struct PoolInfo` of the contract; token contracts as `Nat` addresses. -/
structure PoolInfo where
  stakingToken : Nat
  rewardToken : Nat
  allocPoint : Nat
  lastRewardBlock : Nat
  accRewardPerShare : Nat
  totalStaked : Nat
  minLockPeriod : Nat
  isEmergencyWithdrawEnabled : Bool
deriving Repr, DecidableEq

/-- Out-of-range default used by the total lookup `poolAt`. -/
def emptyPool : PoolInfo :=
  { stakingToken := 0, rewardToken := 0, allocPoint := 0, lastRewardBlock := 0,
    accRewardPerShare := 0, totalStaked := 0, minLockPeriod := 0,
    isEmergencyWithdrawEnabled := false }

/-- `uint256 public constant PRECISION = 1e12`. -/
def PRECISION : Nat := 10 ^ 12

/-- `uint256 public constant MAX_FEE = 1000`. -/
def MAX_FEE : Nat := 1000

/-- Token movements performed by an operation, in program order. -/
inductive Transfer where
  /-- `stakingToken.safeTransferFrom(user, address(this), amount)` -/
  | stakeIn (token sender amount : Nat)
  /-- `stakingToken.safeTransfer(user, amount)` -/
  | stakeOut (token recipient amount : Nat)
  /-- reward payout inside `safeRewardTransfer` -/
  | rewardOut (token recipient amount : Nat)
deriving Repr, DecidableEq

/-- Events emitted by the contract. -/
inductive Event where
  | deposited (user pid amount : Nat)
  | withdrawn (user pid amount : Nat)
  | emergencyWithdrawn (user pid amount : Nat)
  | rewardClaimed (user pid amount : Nat)
  | poolAdded (pid stakingToken rewardToken : Nat)
  | positionRebalanced (user pid newAmount : Nat)
deriving Repr, DecidableEq

/-- Revert reasons (the `require` messages and arithmetic panics). -/
inductive Err where
  | invalidPool
  | invalidAmount
  | insufficientBalance
  | positionLocked
  | noPosition
  | emergencyDisabled
  | notAuthorized
  | positionNotActive
  | systemPaused
  | systemNotPaused
  | notOwner
  | zeroAddress
  | feeTooHigh
  | panicDivByZero
deriving Repr, DecidableEq

/-- Externally supplied per-call context. -/
structure Env where
  blockNumber : Nat
  blockTimestamp : Nat
  sender : Nat
  /-- `rewardToken.balanceOf(address(this))` as observed by
  `safeRewardTransfer` during this call. -/
  rewardBal : Nat
deriving Repr, DecidableEq

/-- Position store: finite map keyed by `(pid, user)`, modelling
`mapping(uint256 => mapping(address => Position)) userPositions`. -/
abbrev PosMap := List ((Nat × Nat) × Position)

/-- First entry stored at a key, if any. -/
def lookupPos : PosMap → Nat × Nat → Option Position
  | [], _ => none
  | en :: m, k => if en.1 = k then some en.2 else lookupPos m k

/-- Drop every entry stored at a key. -/
def removePos : PosMap → Nat × Nat → PosMap
  | [], _ => []
  | en :: m, k => if en.1 = k then removePos m k else en :: removePos m k

/-- Mapping read: the stored position, or the all-zero default. -/
def getPosition (m : PosMap) (pid user : Nat) : Position :=
  (lookupPos m (pid, user)).getD emptyPosition

/-- Mapping write: replace the entry at the key. -/
def setPosition (m : PosMap) (pid user : Nat) (p : Position) : PosMap :=
  ((pid, user), p) :: removePos m (pid, user)

/-- Contract storage. -/
structure State where
  poolInfo : List PoolInfo
  positions : PosMap
  /-- the set of addresses with `authorizedRebalancers[a] = true` -/
  authorizedRebalancers : List Nat
  rewardPerBlock : Nat
  totalAllocPoint : Nat
  emergencyWithdrawFee : Nat
  paused : Bool
  owner : Nat
deriving Repr, DecidableEq

/-- Result of a successful call: new storage, token movements, events. -/
structure Out where
  state : State
  transfers : List Transfer
  events : List Event
deriving Repr, DecidableEq

/-- Total pool lookup (`poolInfo[pid]`, with a default out of range;
every operation guards `pid < poolInfo.length` before using it). -/
def poolAt (pools : List PoolInfo) (pid : Nat) : PoolInfo :=
  (pools.get? pid).getD emptyPool

/-- `updatePool` on a single pool, as a function of the globals it
reads.  `none` models the Solidity division-by-zero revert when the
reward computation runs with `totalAllocPoint = 0`. -/
def updatePool (rewardPerBlock totalAllocPoint blockNumber : Nat)
    (pool : PoolInfo) : Option PoolInfo :=
  if blockNumber ≤ pool.lastRewardBlock then
    some pool
  else if pool.totalStaked = 0 then
    some { pool with lastRewardBlock := blockNumber }
  else if totalAllocPoint = 0 then
    none
  else
    let multiplier := blockNumber - pool.lastRewardBlock
    let reward := multiplier * rewardPerBlock * pool.allocPoint / totalAllocPoint
    some { pool with
      accRewardPerShare := pool.accRewardPerShare + reward * PRECISION / pool.totalStaked,
      lastRewardBlock := blockNumber }

/-- `massUpdatePools`: update every pool in index order (each update
only reads the globals, never another pool). -/
def updateAllPools (rewardPerBlock totalAllocPoint blockNumber : Nat) :
    List PoolInfo → Option (List PoolInfo)
  | [] => some []
  | p :: ps => do
      let p' ← updatePool rewardPerBlock totalAllocPoint blockNumber p
      let ps' ← updateAllPools rewardPerBlock totalAllocPoint blockNumber ps
      pure (p' :: ps')

/-- Amount actually moved by `safeRewardTransfer`: the requested amount
capped at the contract's reward-token balance. -/
def safeRewardPaid (balance amount : Nat) : Nat :=
  if amount > balance then balance else amount

/-- Reward settlement used by `deposit`/`withdraw`: pay `pending`
through `safeRewardTransfer` and emit `RewardClaimed` when positive. -/
def settlePending (rewardToken sender pid pending rewardBal : Nat) :
    List Transfer × List Event :=
  if pending > 0 then
    ([Transfer.rewardOut rewardToken sender (safeRewardPaid rewardBal pending)],
     [Event.rewardClaimed sender pid pending])
  else
    ([], [])

/-- The `if (position.amount > 0)` settlement block of `deposit`. -/
def settleIfExisting (position : Position) (rewardToken sender pid acc rewardBal : Nat) :
    List Transfer × List Event :=
  if position.amount > 0 then
    settlePending rewardToken sender pid
      (position.amount * acc / PRECISION - position.rewardDebt) rewardBal
  else ([], [])

/-- Success branch of `deposit`: state mutation, transfers and events
performed once the guards have passed and the pool has accrued to
`pool1`. -/
def depositResult (s : State) (e : Env) (pid amount : Nat) (pool1 : PoolInfo) : Out :=
  let position := getPosition s.positions pid e.sender
  let settled :=
    settleIfExisting position pool1.rewardToken e.sender pid
      pool1.accRewardPerShare e.rewardBal
  let position2 : Position :=
    { amount := position.amount + amount
      lastRewardBlock := e.blockNumber
      rewardDebt := (position.amount + amount) * pool1.accRewardPerShare / PRECISION
      lockEndTime := e.blockTimestamp + pool1.minLockPeriod
      isActive := true }
  let pool2 := { pool1 with totalStaked := pool1.totalStaked + amount }
  { state := { s with
      poolInfo := s.poolInfo.set pid pool2
      positions := setPosition s.positions pid e.sender position2 }
    transfers := settled.1 ++ [Transfer.stakeIn pool1.stakingToken e.sender amount]
    events := settled.2 ++ [Event.deposited e.sender pid amount] }

/-- `deposit(_pid, _amount)` (external, nonReentrant, whenNotPaused). -/
def deposit (s : State) (e : Env) (pid amount : Nat) : Except Err Out :=
  if s.paused then .error .systemPaused
  else if pid < s.poolInfo.length then
    if amount = 0 then .error .invalidAmount
    else
      match updatePool s.rewardPerBlock s.totalAllocPoint e.blockNumber (poolAt s.poolInfo pid) with
      | none => .error .panicDivByZero
      | some pool1 => .ok (depositResult s e pid amount pool1)
  else .error .invalidPool

/-- The position after `withdraw`: amount reduced, `rewardDebt`
re-priced, `isActive` cleared exactly when the stake reaches zero. -/
def withdrawnPosition (q : Position) (amount acc : Nat) : Position :=
  { amount := q.amount - amount
    lastRewardBlock := q.lastRewardBlock
    rewardDebt := (q.amount - amount) * acc / PRECISION
    lockEndTime := q.lockEndTime
    isActive := if q.amount - amount = 0 then false else q.isActive }

/-- Success branch of `withdraw` after accrual to `pool1`. -/
def withdrawResult (s : State) (e : Env) (pid amount : Nat) (pool1 : PoolInfo) : Out :=
  let position := getPosition s.positions pid e.sender
  let settled :=
    settlePending pool1.rewardToken e.sender pid
      (position.amount * pool1.accRewardPerShare / PRECISION - position.rewardDebt)
      e.rewardBal
  let position2 := withdrawnPosition position amount pool1.accRewardPerShare
  let pool2 := { pool1 with totalStaked := pool1.totalStaked - amount }
  { state := { s with
      poolInfo := s.poolInfo.set pid pool2
      positions := setPosition s.positions pid e.sender position2 }
    transfers := settled.1 ++ [Transfer.stakeOut pool1.stakingToken e.sender amount]
    events := settled.2 ++ [Event.withdrawn e.sender pid amount] }

/-- `withdraw(_pid, _amount)` (external, nonReentrant — NOT paused-gated). -/
def withdraw (s : State) (e : Env) (pid amount : Nat) : Except Err Out :=
  if pid < s.poolInfo.length then
    if (getPosition s.positions pid e.sender).amount < amount then .error .insufficientBalance
    else if e.blockTimestamp < (getPosition s.positions pid e.sender).lockEndTime then
      .error .positionLocked
    else
      match updatePool s.rewardPerBlock s.totalAllocPoint e.blockNumber (poolAt s.poolInfo pid) with
      | none => .error .panicDivByZero
      | some pool1 => .ok (withdrawResult s e pid amount pool1)
  else .error .invalidPool

/-- The position after `emergencyWithdraw`: zeroed and deactivated
(`lastRewardBlock` and `lockEndTime` are left as they were). -/
def emergencyPosition (q : Position) : Position :=
  { amount := 0
    lastRewardBlock := q.lastRewardBlock
    rewardDebt := 0
    lockEndTime := q.lockEndTime
    isActive := false }

/-- Success branch of `emergencyWithdraw` (no accrual happens). -/
def emergencyResult (s : State) (e : Env) (pid : Nat) : Out :=
  let pool := poolAt s.poolInfo pid
  let position := getPosition s.positions pid e.sender
  let amount := position.amount
  let fee := amount * s.emergencyWithdrawFee / 10000
  let amountAfterFee := amount - fee
  let position2 := emergencyPosition position
  let pool2 := { pool with totalStaked := pool.totalStaked - amount }
  { state := { s with
      poolInfo := s.poolInfo.set pid pool2
      positions := setPosition s.positions pid e.sender position2 }
    transfers := [Transfer.stakeOut pool.stakingToken e.sender amountAfterFee]
    events := [Event.emergencyWithdrawn e.sender pid amountAfterFee] }

/-- `emergencyWithdraw(_pid)` (external, nonReentrant; no accrual, no
reward settlement, no lock check). -/
def emergencyWithdraw (s : State) (e : Env) (pid : Nat) : Except Err Out :=
  if pid < s.poolInfo.length then
    if (getPosition s.positions pid e.sender).amount = 0 then .error .noPosition
    else if (poolAt s.poolInfo pid).isEmergencyWithdrawEnabled = false then
      .error .emergencyDisabled
    else .ok (emergencyResult s e pid)
  else .error .invalidPool

/-- `rebalancePosition(_pid, _user, _newAmount)` (rebalancer-gated
accrual hook; emits an event and moves nothing). -/
def rebalancePosition (s : State) (e : Env) (pid user newAmount : Nat) : Except Err Out :=
  if e.sender ∈ s.authorizedRebalancers then
    if pid < s.poolInfo.length then
      if (getPosition s.positions pid user).isActive then
        match updatePool s.rewardPerBlock s.totalAllocPoint e.blockNumber (poolAt s.poolInfo pid) with
        | none => .error .panicDivByZero
        | some pool1 =>
          .ok { state := { s with poolInfo := s.poolInfo.set pid pool1 }
                transfers := []
                events := [Event.positionRebalanced user pid newAmount] }
      else .error .positionNotActive
    else .error .invalidPool
  else .error .notAuthorized

/-- `addPool(...)` (owner-only; mass-updates existing pools first with
the pre-increment `totalAllocPoint`). -/
def addPool (s : State) (e : Env)
    (stakingToken rewardToken allocPoint minLockPeriod : Nat) : Except Err Out :=
  if e.sender ≠ s.owner then .error .notOwner
  else if stakingToken = 0 then .error .zeroAddress
  else if rewardToken = 0 then .error .zeroAddress
  else
    match updateAllPools s.rewardPerBlock s.totalAllocPoint e.blockNumber s.poolInfo with
    | none => .error .panicDivByZero
    | some pools1 =>
      let newPool : PoolInfo :=
        { stakingToken := stakingToken
          rewardToken := rewardToken
          allocPoint := allocPoint
          lastRewardBlock := e.blockNumber
          accRewardPerShare := 0
          totalStaked := 0
          minLockPeriod := minLockPeriod
          isEmergencyWithdrawEnabled := false }
      .ok { state := { s with
              poolInfo := pools1 ++ [newPool]
              totalAllocPoint := s.totalAllocPoint + allocPoint }
            transfers := []
            events := [Event.poolAdded pools1.length stakingToken rewardToken] }

/-- `updatePool(_pid)` as the public entry point (anyone may call;
`poolInfo[_pid]` reverts out of range). -/
def updatePoolCall (s : State) (e : Env) (pid : Nat) : Except Err Out :=
  if pid < s.poolInfo.length then
    match updatePool s.rewardPerBlock s.totalAllocPoint e.blockNumber (poolAt s.poolInfo pid) with
    | none => .error .panicDivByZero
    | some pool1 =>
      .ok { state := { s with poolInfo := s.poolInfo.set pid pool1 }
            transfers := [], events := [] }
  else .error .invalidPool

/-- `massUpdatePools()` as the public entry point. -/
def massUpdatePoolsCall (s : State) (e : Env) : Except Err Out :=
  match updateAllPools s.rewardPerBlock s.totalAllocPoint e.blockNumber s.poolInfo with
  | none => .error .panicDivByZero
  | some pools1 =>
    .ok { state := { s with poolInfo := pools1 }, transfers := [], events := [] }

/-- `setRewardPerBlock(v)` (owner-only; mass-updates first with the old rate). -/
def setRewardPerBlock (s : State) (e : Env) (v : Nat) : Except Err Out :=
  if e.sender ≠ s.owner then .error .notOwner
  else
    match updateAllPools s.rewardPerBlock s.totalAllocPoint e.blockNumber s.poolInfo with
    | none => .error .panicDivByZero
    | some pools1 =>
      .ok { state := { s with poolInfo := pools1, rewardPerBlock := v }
            transfers := [], events := [] }

/-- `setEmergencyWithdrawFee(fee)` (owner-only, capped at `MAX_FEE`). -/
def setEmergencyWithdrawFee (s : State) (e : Env) (fee : Nat) : Except Err Out :=
  if e.sender ≠ s.owner then .error .notOwner
  else if MAX_FEE < fee then .error .feeTooHigh
  else .ok { state := { s with emergencyWithdrawFee := fee }, transfers := [], events := [] }

/-- `toggleEmergencyWithdraw(pid, enabled)` (owner-only; array access
reverts out of range). -/
def toggleEmergencyWithdraw (s : State) (e : Env) (pid : Nat) (enabled : Bool) : Except Err Out :=
  if e.sender ≠ s.owner then .error .notOwner
  else if pid < s.poolInfo.length then
    let pool1 := { poolAt s.poolInfo pid with isEmergencyWithdrawEnabled := enabled }
    .ok { state := { s with poolInfo := s.poolInfo.set pid pool1 }
          transfers := [], events := [] }
  else .error .invalidPool

/-- `setAuthorizedRebalancer(a, authorized)` (owner-only mapping write). -/
def setAuthorizedRebalancer (s : State) (e : Env) (a : Nat) (authorized : Bool) : Except Err Out :=
  if e.sender ≠ s.owner then .error .notOwner
  else
    let cleared := s.authorizedRebalancers.filter (fun x => x ≠ a)
    .ok { state := { s with authorizedRebalancers := if authorized then a :: cleared else cleared }
          transfers := [], events := [] }

/-- `pause()` (owner-only; OpenZeppelin `_pause` reverts when already paused). -/
def pauseCall (s : State) (e : Env) : Except Err Out :=
  if e.sender ≠ s.owner then .error .notOwner
  else if s.paused then .error .systemPaused
  else .ok { state := { s with paused := true }, transfers := [], events := [] }

/-- `unpause()` (owner-only; `_unpause` reverts when not paused). -/
def unpauseCall (s : State) (e : Env) : Except Err Out :=
  if e.sender ≠ s.owner then .error .notOwner
  else if s.paused then .ok { state := { s with paused := false }, transfers := [], events := [] }
  else .error .systemNotPaused

/-- Inherited `Ownable.transferOwnership` (rejects the zero address). -/
def transferOwnership (s : State) (e : Env) (newOwner : Nat) : Except Err Out :=
  if e.sender ≠ s.owner then .error .notOwner
  else if newOwner = 0 then .error .zeroAddress
  else .ok { state := { s with owner := newOwner }, transfers := [], events := [] }

/-- Inherited `Ownable.renounceOwnership`. -/
def renounceOwnership (s : State) (e : Env) : Except Err Out :=
  if e.sender ≠ s.owner then .error .notOwner
  else .ok { state := { s with owner := 0 }, transfers := [], events := [] }

/-- The contract's full external mutating surface. -/
inductive Op where
  | addPool (e : Env) (stakingToken rewardToken allocPoint minLockPeriod : Nat)
  | deposit (e : Env) (pid amount : Nat)
  | withdraw (e : Env) (pid amount : Nat)
  | emergencyWithdraw (e : Env) (pid : Nat)
  | rebalancePosition (e : Env) (pid user newAmount : Nat)
  | updatePoolCall (e : Env) (pid : Nat)
  | massUpdatePoolsCall (e : Env)
  | setRewardPerBlock (e : Env) (v : Nat)
  | setEmergencyWithdrawFee (e : Env) (fee : Nat)
  | toggleEmergencyWithdraw (e : Env) (pid : Nat) (enabled : Bool)
  | setAuthorizedRebalancer (e : Env) (a : Nat) (authorized : Bool)
  | pauseCall (e : Env)
  | unpauseCall (e : Env)
  | transferOwnership (e : Env) (newOwner : Nat)
  | renounceOwnership (e : Env)
deriving Repr, DecidableEq

/-- Dispatch an operation. -/
def applyOp (s : State) : Op → Except Err Out
  | .addPool e st rt ap mlp => addPool s e st rt ap mlp
  | .deposit e pid amount => deposit s e pid amount
  | .withdraw e pid amount => withdraw s e pid amount
  | .emergencyWithdraw e pid => emergencyWithdraw s e pid
  | .rebalancePosition e pid user newAmount => rebalancePosition s e pid user newAmount
  | .updatePoolCall e pid => updatePoolCall s e pid
  | .massUpdatePoolsCall e => massUpdatePoolsCall s e
  | .setRewardPerBlock e v => setRewardPerBlock s e v
  | .setEmergencyWithdrawFee e fee => setEmergencyWithdrawFee s e fee
  | .toggleEmergencyWithdraw e pid enabled => toggleEmergencyWithdraw s e pid enabled
  | .setAuthorizedRebalancer e a authorized => setAuthorizedRebalancer s e a authorized
  | .pauseCall e => pauseCall s e
  | .unpauseCall e => unpauseCall s e
  | .transferOwnership e newOwner => transferOwnership s e newOwner
  | .renounceOwnership e => renounceOwnership s e

/-- Transaction semantics: a revert leaves the storage unchanged. -/
def step (s : State) (op : Op) : State :=
  match applyOp s op with
  | .ok o => o.state
  | .error _ => s

/-- Run a sequence of operations. -/
def run (s : State) (ops : List Op) : State :=
  ops.foldl step s

/-- Constructor: the deployer is owner and the initial rebalancer;
`rewardPerBlock = 1e18`, `emergencyWithdrawFee = 500`. -/
def initState (deployer : Nat) : State :=
  { poolInfo := []
    positions := []
    authorizedRebalancers := [deployer]
    rewardPerBlock := 10 ^ 18
    totalAllocPoint := 0
    emergencyWithdrawFee := 500
    paused := false
    owner := deployer }

/-- A storage state reachable from deployment by some call sequence. -/
def Reachable (s : State) : Prop :=
  ∃ deployer ops, s = run (initState deployer) ops

/-- Contribution of one position entry to a pool's active stake. -/
def contrib (pid : Nat) (en : (Nat × Nat) × Position) : Nat :=
  if en.1.1 = pid ∧ en.2.isActive = true then en.2.amount else 0

/-- Sum of `position.amount` over the active positions of pool `pid`. -/
def activeStake (pid : Nat) (m : PosMap) : Nat :=
  (m.map (contrib pid)).sum

/-- A pool's accumulator, total lookup (0 out of range). -/
def poolAcc (s : State) (pid : Nat) : Nat :=
  (poolAt s.poolInfo pid).accRewardPerShare

/-! ### Pool lookup lemmas -/

theorem poolAt_nil (pid : Nat) : poolAt [] pid = emptyPool := rfl

theorem poolAt_cons_zero (p : PoolInfo) (l : List PoolInfo) : poolAt (p :: l) 0 = p := rfl

theorem poolAt_cons_succ (p : PoolInfo) (l : List PoolInfo) (n : Nat) :
    poolAt (p :: l) (n + 1) = poolAt l n := rfl

theorem poolAt_set_self {l : List PoolInfo} {pid : Nat} (p : PoolInfo) (h : pid < l.length) :
    poolAt (l.set pid p) pid = p := by
  simp [poolAt, List.getElem?_set_eq_of_lt p h]

theorem poolAt_set_ne {pid j : Nat} (l : List PoolInfo) (p : PoolInfo) (h : pid ≠ j) :
    poolAt (l.set pid p) j = poolAt l j := by
  simp [poolAt, List.getElem?_set_ne h]

theorem poolAt_append_lt {l : List PoolInfo} (m : List PoolInfo) {pid : Nat}
    (h : pid < l.length) : poolAt (l ++ m) pid = poolAt l pid := by
  simp [poolAt, List.getElem?_append_left h]

theorem poolAt_len_le {l : List PoolInfo} {pid : Nat} (h : l.length ≤ pid) :
    poolAt l pid = emptyPool := by
  simp [poolAt, List.getElem?_eq_none h]

/-- Fields `updatePool` leaves untouched, plus accumulator monotonicity. -/
def PoolFrame (p q : PoolInfo) : Prop :=
  q.stakingToken = p.stakingToken ∧ q.rewardToken = p.rewardToken ∧
  q.allocPoint = p.allocPoint ∧ q.totalStaked = p.totalStaked ∧
  q.minLockPeriod = p.minLockPeriod ∧
  q.isEmergencyWithdrawEnabled = p.isEmergencyWithdrawEnabled ∧
  p.accRewardPerShare ≤ q.accRewardPerShare

theorem poolFrame_refl (p : PoolInfo) : PoolFrame p p := by
  simp [PoolFrame]

theorem updatePool_frame {r t b : Nat} {p q : PoolInfo}
    (h : updatePool r t b p = some q) : PoolFrame p q := by
  unfold updatePool at h
  split at h
  · injection h with h; subst h; exact poolFrame_refl p
  · split at h
    · injection h with h; subst h; simp [PoolFrame]
    · split at h
      · cases h
      · injection h with h; subst h; simp [PoolFrame]

theorem updateAllPools_spec {r t b : Nat} :
    ∀ {l l' : List PoolInfo}, updateAllPools r t b l = some l' →
      l'.length = l.length ∧ ∀ pid, PoolFrame (poolAt l pid) (poolAt l' pid) := by
  intro l
  induction l with
  | nil =>
    intro l' h
    unfold updateAllPools at h
    injection h with h; subst h
    exact ⟨rfl, fun pid => poolFrame_refl _⟩
  | cons p ps ih =>
    intro l' h
    unfold updateAllPools at h
    cases hu : updatePool r t b p with
    | none => rw [hu] at h; cases h
    | some p1 =>
      rw [hu] at h
      cases hr : updateAllPools r t b ps with
      | none => rw [hr] at h; cases h
      | some ps1 =>
        rw [hr] at h
        injection h with h; subst h
        refine ⟨by simp [(ih hr).1], fun pid => ?_⟩
        cases pid with
        | zero => simpa [poolAt_cons_zero] using updatePool_frame hu
        | succ n => simpa [poolAt_cons_succ] using (ih hr).2 n

/-! ### Position map lemmas -/

/-- The keys of the position store. -/
def keys (m : PosMap) : List (Nat × Nat) := m.map (fun en => en.1)

theorem keys_cons (en : (Nat × Nat) × Position) (m : PosMap) :
    keys (en :: m) = en.1 :: keys m := rfl

theorem getPosition_set_self (m : PosMap) (pid user : Nat) (p : Position) :
    getPosition (setPosition m pid user p) pid user = p := by
  simp [getPosition, setPosition, lookupPos]

theorem lookupPos_removePos {k k' : Nat × Nat} (h : k' ≠ k) (m : PosMap) :
    lookupPos (removePos m k) k' = lookupPos m k' := by
  induction m with
  | nil => rfl
  | cons en m ih =>
    by_cases hk : en.1 = k
    · have hne : en.1 ≠ k' := by rw [hk]; exact fun hh => h hh.symm
      rw [removePos, if_pos hk, ih, lookupPos, if_neg hne]
    · rw [removePos, if_neg hk, lookupPos, lookupPos]
      by_cases hk' : en.1 = k'
      · rw [if_pos hk', if_pos hk']
      · rw [if_neg hk', if_neg hk', ih]

theorem getPosition_set_ne (m : PosMap) {pid user pid' user' : Nat} (p : Position)
    (h : (pid', user') ≠ (pid, user)) :
    getPosition (setPosition m pid user p) pid' user' = getPosition m pid' user' := by
  unfold getPosition setPosition
  rw [lookupPos, if_neg (fun hh => h hh.symm), lookupPos_removePos h]

theorem removePos_subset {m : PosMap} {k : Nat × Nat} {en : (Nat × Nat) × Position}
    (h : en ∈ removePos m k) : en ∈ m := by
  induction m with
  | nil => simp [removePos] at h
  | cons en0 m ih =>
    by_cases hk : en0.1 = k
    · rw [removePos, if_pos hk] at h
      exact List.mem_cons_of_mem en0 (ih h)
    · rw [removePos, if_neg hk] at h
      rcases List.mem_cons.mp h with h | h
      · exact h ▸ List.mem_cons_self en0 m
      · exact List.mem_cons_of_mem en0 (ih h)

theorem mem_setPosition {m : PosMap} {pid user : Nat} {p : Position}
    {en : (Nat × Nat) × Position} (h : en ∈ setPosition m pid user p) :
    en = ((pid, user), p) ∨ en ∈ m := by
  rcases List.mem_cons.mp h with h | h
  · exact Or.inl h
  · exact Or.inr (removePos_subset h)

theorem removePos_eq_of_not_mem {m : PosMap} {k : Nat × Nat} (h : k ∉ keys m) :
    removePos m k = m := by
  induction m with
  | nil => rfl
  | cons en m ih =>
    rw [keys_cons] at h
    have h1 : en.1 ≠ k := fun hh => h (hh ▸ List.mem_cons_self _ _)
    have h2 : k ∉ keys m := fun hh => h (List.mem_cons_of_mem _ hh)
    rw [removePos, if_neg h1, ih h2]

theorem mem_keys_of_removePos {m : PosMap} {k x : Nat × Nat}
    (h : x ∈ keys (removePos m k)) : x ∈ keys m := by
  unfold keys at h ⊢
  rcases List.mem_map.mp h with ⟨en, hen, hx⟩
  exact List.mem_map.mpr ⟨en, removePos_subset hen, hx⟩

theorem key_not_mem_keys_removePos (m : PosMap) (k : Nat × Nat) :
    k ∉ keys (removePos m k) := by
  induction m with
  | nil => simp [removePos, keys]
  | cons en m ih =>
    by_cases hk : en.1 = k
    · rw [removePos, if_pos hk]; exact ih
    · rw [removePos, if_neg hk, keys_cons]
      intro h
      rcases List.mem_cons.mp h with h | h
      · exact hk h.symm
      · exact ih h

theorem keys_removePos_nodup {m : PosMap} (k : Nat × Nat) (hnd : (keys m).Nodup) :
    (keys (removePos m k)).Nodup := by
  induction m with
  | nil => simpa [removePos] using hnd
  | cons en m ih =>
    rw [keys_cons] at hnd
    have hhead : en.1 ∉ keys m := (List.nodup_cons.mp hnd).1
    have htail : (keys m).Nodup := (List.nodup_cons.mp hnd).2
    by_cases hk : en.1 = k
    · rw [removePos, if_pos hk]; exact ih htail
    · rw [removePos, if_neg hk, keys_cons]
      exact List.nodup_cons.mpr ⟨fun h => hhead (mem_keys_of_removePos h), ih htail⟩

theorem keys_setPosition_nodup {m : PosMap} (pid user : Nat) (p : Position)
    (hnd : (keys m).Nodup) : (keys (setPosition m pid user p)).Nodup := by
  rw [setPosition, keys_cons]
  exact List.nodup_cons.mpr
    ⟨key_not_mem_keys_removePos m (pid, user), keys_removePos_nodup (pid, user) hnd⟩

theorem activeStake_nil (pid : Nat) : activeStake pid [] = 0 := rfl

theorem activeStake_cons (pid : Nat) (en : (Nat × Nat) × Position) (m : PosMap) :
    activeStake pid (en :: m) = contrib pid en + activeStake pid m := rfl

theorem contrib_empty (pid : Nat) (k : Nat × Nat) : contrib pid (k, emptyPosition) = 0 := by
  simp [contrib, emptyPosition]

theorem activeStake_remove (pid pid0 user : Nat) {m : PosMap} (hnd : (keys m).Nodup) :
    activeStake pid m
      = contrib pid ((pid0, user), getPosition m pid0 user)
        + activeStake pid (removePos m (pid0, user)) := by
  induction m with
  | nil => simp [activeStake_nil, getPosition, lookupPos, contrib_empty, removePos]
  | cons en m ih =>
    rw [keys_cons] at hnd
    have hhead : en.1 ∉ keys m := (List.nodup_cons.mp hnd).1
    have htail : (keys m).Nodup := (List.nodup_cons.mp hnd).2
    by_cases hk : en.1 = (pid0, user)
    · have hrm : removePos m (pid0, user) = m := removePos_eq_of_not_mem (hk ▸ hhead)
      have hget : getPosition (en :: m) pid0 user = en.2 := by
        simp [getPosition, lookupPos, hk]
      have hcontrib : contrib pid ((pid0, user), en.2) = contrib pid en := by
        obtain ⟨k0, p0⟩ := en
        simp only at hk
        rw [hk]
      rw [activeStake_cons, hget, hcontrib, removePos, if_pos hk, hrm]
    · have hget : getPosition (en :: m) pid0 user = getPosition m pid0 user := by
        simp [getPosition, lookupPos, hk]
      rw [activeStake_cons, hget, removePos, if_neg hk, activeStake_cons, ih htail]
      omega

theorem activeStake_set (pid pid0 user : Nat) (p : Position) {m : PosMap}
    (hnd : (keys m).Nodup) :
    activeStake pid (setPosition m pid0 user p)
        + contrib pid ((pid0, user), getPosition m pid0 user)
      = contrib pid ((pid0, user), p) + activeStake pid m := by
  rw [setPosition, activeStake_cons, activeStake_remove pid pid0 user hnd]
  omega

theorem activeStake_eq_zero {pid : Nat} {m : PosMap}
    (h : ∀ en ∈ m, en.1.1 ≠ pid) : activeStake pid m = 0 := by
  induction m with
  | nil => rfl
  | cons en m ih =>
    have hc : contrib pid en = 0 := by
      unfold contrib
      rw [if_neg]
      intro hcond
      exact h en (List.mem_cons_self en m) hcond.1
    rw [activeStake_cons, hc, ih (fun en hen => h en (List.mem_cons_of_mem _ hen))]

theorem lookupPos_mem {m : PosMap} {k : Nat × Nat} {p : Position}
    (h : lookupPos m k = some p) : (k, p) ∈ m := by
  induction m with
  | nil => cases h
  | cons en m ih =>
    by_cases hk : en.1 = k
    · rw [lookupPos, if_pos hk] at h
      injection h with h
      obtain ⟨k0, p0⟩ := en
      simp only at hk h
      rw [← hk, ← h]
      exact List.mem_cons_self _ _
    · rw [lookupPos, if_neg hk] at h
      exact List.mem_cons_of_mem en (ih h)

/-! ### Success-case inversion lemmas for each operation -/

theorem deposit_ok {s : State} {e : Env} {pid amount : Nat} {out : Out}
    (h : deposit s e pid amount = .ok out) :
    s.paused = false ∧ pid < s.poolInfo.length ∧ amount ≠ 0 ∧
    ∃ pool1,
      updatePool s.rewardPerBlock s.totalAllocPoint e.blockNumber (poolAt s.poolInfo pid)
        = some pool1 ∧
      out = depositResult s e pid amount pool1 := by
  unfold deposit at h
  split at h
  · cases h
  · split at h
    · split at h
      · cases h
      · split at h
        · cases h
        · injection h with h
          subst h
          exact ⟨by simp_all, by assumption, by assumption, _, by assumption, rfl⟩
    · cases h

theorem withdraw_ok {s : State} {e : Env} {pid amount : Nat} {out : Out}
    (h : withdraw s e pid amount = .ok out) :
    pid < s.poolInfo.length ∧
    amount ≤ (getPosition s.positions pid e.sender).amount ∧
    (getPosition s.positions pid e.sender).lockEndTime ≤ e.blockTimestamp ∧
    ∃ pool1,
      updatePool s.rewardPerBlock s.totalAllocPoint e.blockNumber (poolAt s.poolInfo pid)
        = some pool1 ∧
      out = withdrawResult s e pid amount pool1 := by
  unfold withdraw at h
  split at h
  · split at h
    · cases h
    · split at h
      · cases h
      · split at h
        · cases h
        · injection h with h
          subst h
          refine ⟨by assumption, Nat.not_lt.mp (by assumption), Nat.not_lt.mp (by assumption),
            _, by assumption, rfl⟩
  · cases h

theorem emergencyWithdraw_ok {s : State} {e : Env} {pid : Nat} {out : Out}
    (h : emergencyWithdraw s e pid = .ok out) :
    pid < s.poolInfo.length ∧
    (getPosition s.positions pid e.sender).amount ≠ 0 ∧
    (poolAt s.poolInfo pid).isEmergencyWithdrawEnabled = true ∧
    out = emergencyResult s e pid := by
  unfold emergencyWithdraw at h
  split at h
  · split at h
    · cases h
    · split at h
      · cases h
      · injection h with h
        subst h
        exact ⟨by assumption, by assumption, by simp_all, rfl⟩
  · cases h

theorem rebalancePosition_ok {s : State} {e : Env} {pid user newAmount : Nat} {out : Out}
    (h : rebalancePosition s e pid user newAmount = .ok out) :
    e.sender ∈ s.authorizedRebalancers ∧ pid < s.poolInfo.length ∧
    (getPosition s.positions pid user).isActive = true ∧
    ∃ pool1,
      updatePool s.rewardPerBlock s.totalAllocPoint e.blockNumber (poolAt s.poolInfo pid)
        = some pool1 ∧
      out = { state := { s with poolInfo := s.poolInfo.set pid pool1 }
              transfers := []
              events := [Event.positionRebalanced user pid newAmount] } := by
  unfold rebalancePosition at h
  split at h
  · split at h
    · split at h
      · split at h
        · cases h
        · injection h with h
          subst h
          exact ⟨by assumption, by assumption, by assumption, _, by assumption, rfl⟩
      · cases h
    · cases h
  · cases h

theorem addPool_ok {s : State} {e : Env} {st rt ap mlp : Nat} {out : Out}
    (h : addPool s e st rt ap mlp = .ok out) :
    e.sender = s.owner ∧ st ≠ 0 ∧ rt ≠ 0 ∧
    ∃ pools1,
      updateAllPools s.rewardPerBlock s.totalAllocPoint e.blockNumber s.poolInfo
        = some pools1 ∧
      out = { state := { s with
                poolInfo := pools1 ++
                  [{ stakingToken := st, rewardToken := rt, allocPoint := ap,
                     lastRewardBlock := e.blockNumber, accRewardPerShare := 0,
                     totalStaked := 0, minLockPeriod := mlp,
                     isEmergencyWithdrawEnabled := false }]
                totalAllocPoint := s.totalAllocPoint + ap }
              transfers := []
              events := [Event.poolAdded pools1.length st rt] } := by
  unfold addPool at h
  split at h
  · cases h
  · split at h
    · cases h
    · split at h
      · cases h
      · split at h
        · cases h
        · injection h with h
          subst h
          refine ⟨by simp_all, by assumption, by assumption, _, by assumption, rfl⟩

theorem updatePoolCall_ok {s : State} {e : Env} {pid : Nat} {out : Out}
    (h : updatePoolCall s e pid = .ok out) :
    pid < s.poolInfo.length ∧
    ∃ pool1,
      updatePool s.rewardPerBlock s.totalAllocPoint e.blockNumber (poolAt s.poolInfo pid)
        = some pool1 ∧
      out = { state := { s with poolInfo := s.poolInfo.set pid pool1 }
              transfers := [], events := [] } := by
  unfold updatePoolCall at h
  split at h
  · split at h
    · cases h
    · injection h with h
      subst h
      exact ⟨by assumption, _, by assumption, rfl⟩
  · cases h

theorem massUpdatePoolsCall_ok {s : State} {e : Env} {out : Out}
    (h : massUpdatePoolsCall s e = .ok out) :
    ∃ pools1,
      updateAllPools s.rewardPerBlock s.totalAllocPoint e.blockNumber s.poolInfo
        = some pools1 ∧
      out = { state := { s with poolInfo := pools1 }, transfers := [], events := [] } := by
  unfold massUpdatePoolsCall at h
  split at h
  · cases h
  · injection h with h
    subst h
    exact ⟨_, by assumption, rfl⟩

theorem setRewardPerBlock_ok {s : State} {e : Env} {v : Nat} {out : Out}
    (h : setRewardPerBlock s e v = .ok out) :
    e.sender = s.owner ∧
    ∃ pools1,
      updateAllPools s.rewardPerBlock s.totalAllocPoint e.blockNumber s.poolInfo
        = some pools1 ∧
      out = { state := { s with poolInfo := pools1, rewardPerBlock := v }
              transfers := [], events := [] } := by
  unfold setRewardPerBlock at h
  split at h
  · cases h
  · split at h
    · cases h
    · injection h with h
      subst h
      exact ⟨by simp_all, _, by assumption, rfl⟩

theorem setEmergencyWithdrawFee_ok {s : State} {e : Env} {fee : Nat} {out : Out}
    (h : setEmergencyWithdrawFee s e fee = .ok out) :
    e.sender = s.owner ∧ fee ≤ MAX_FEE ∧
    out = { state := { s with emergencyWithdrawFee := fee }, transfers := [], events := [] } := by
  unfold setEmergencyWithdrawFee at h
  split at h
  · cases h
  · split at h
    · cases h
    · injection h with h
      subst h
      exact ⟨by simp_all, Nat.not_lt.mp (by assumption), rfl⟩

theorem toggleEmergencyWithdraw_ok {s : State} {e : Env} {pid : Nat} {enabled : Bool}
    {out : Out} (h : toggleEmergencyWithdraw s e pid enabled = .ok out) :
    e.sender = s.owner ∧ pid < s.poolInfo.length ∧
    out = { state := { s with poolInfo := s.poolInfo.set pid ({ poolAt s.poolInfo pid with isEmergencyWithdrawEnabled := enabled }) }
            transfers := [], events := [] } := by
  unfold toggleEmergencyWithdraw at h
  split at h
  · cases h
  · split at h
    · injection h with h
      subst h
      exact ⟨by simp_all, by assumption, rfl⟩
    · cases h

theorem setAuthorizedRebalancer_ok {s : State} {e : Env} {a : Nat} {authorized : Bool}
    {out : Out} (h : setAuthorizedRebalancer s e a authorized = .ok out) :
    e.sender = s.owner ∧
    out = { state := { s with authorizedRebalancers :=
              if authorized then a :: s.authorizedRebalancers.filter (fun x => x ≠ a)
              else s.authorizedRebalancers.filter (fun x => x ≠ a) }
            transfers := [], events := [] } := by
  unfold setAuthorizedRebalancer at h
  split at h
  · cases h
  · injection h with h
    subst h
    exact ⟨by simp_all, rfl⟩

theorem pauseCall_ok {s : State} {e : Env} {out : Out}
    (h : pauseCall s e = .ok out) :
    e.sender = s.owner ∧ s.paused = false ∧
    out = { state := { s with paused := true }, transfers := [], events := [] } := by
  unfold pauseCall at h
  split at h
  · cases h
  · split at h
    · cases h
    · injection h with h
      subst h
      exact ⟨by simp_all, by simp_all, rfl⟩

theorem unpauseCall_ok {s : State} {e : Env} {out : Out}
    (h : unpauseCall s e = .ok out) :
    e.sender = s.owner ∧ s.paused = true ∧
    out = { state := { s with paused := false }, transfers := [], events := [] } := by
  unfold unpauseCall at h
  split at h
  · cases h
  · split at h
    · injection h with h
      subst h
      exact ⟨by simp_all, by assumption, rfl⟩
    · cases h

theorem transferOwnership_ok {s : State} {e : Env} {newOwner : Nat} {out : Out}
    (h : transferOwnership s e newOwner = .ok out) :
    e.sender = s.owner ∧ newOwner ≠ 0 ∧
    out = { state := { s with owner := newOwner }, transfers := [], events := [] } := by
  unfold transferOwnership at h
  split at h
  · cases h
  · split at h
    · cases h
    · injection h with h
      subst h
      exact ⟨by simp_all, by assumption, rfl⟩

theorem renounceOwnership_ok {s : State} {e : Env} {out : Out}
    (h : renounceOwnership s e = .ok out) :
    e.sender = s.owner ∧
    out = { state := { s with owner := 0 }, transfers := [], events := [] } := by
  unfold renounceOwnership at h
  split at h
  · cases h
  · injection h with h
    subst h
    exact ⟨by simp_all, rfl⟩

/-! ### The ledger invariant and its preservation -/

theorem poolAt_append_length (l : List PoolInfo) (p : PoolInfo) :
    poolAt (l ++ [p]) l.length = p := by
  simp [poolAt, List.getElem?_concat_length]

/-- The accounting invariant: position keys are unique, every stored
position refers to an existing pool, inactive positions hold nothing,
and each pool's `totalStaked` is the sum of its active positions. -/
def LedgerInv (s : State) : Prop :=
  (keys s.positions).Nodup ∧
  (∀ en ∈ s.positions, en.1.1 < s.poolInfo.length) ∧
  (∀ en ∈ s.positions, en.2.isActive = false → en.2.amount = 0) ∧
  (∀ pid, (poolAt s.poolInfo pid).totalStaked = activeStake pid s.positions)

theorem getPosition_inactive_amount {m : PosMap}
    (hin : ∀ en ∈ m, en.2.isActive = false → en.2.amount = 0) (pid user : Nat)
    (h : (getPosition m pid user).isActive = false) :
    (getPosition m pid user).amount = 0 := by
  unfold getPosition at h ⊢
  cases hl : lookupPos m (pid, user) with
  | none => simp [emptyPosition]
  | some p =>
    rw [hl] at h
    simp only [Option.getD_some] at h ⊢
    exact hin ((pid, user), p) (lookupPos_mem hl) h

/-- A stored entry always contributes exactly its amount to its own pool. -/
theorem contrib_self {m : PosMap}
    (hin : ∀ en ∈ m, en.2.isActive = false → en.2.amount = 0) (pid user : Nat) :
    contrib pid ((pid, user), getPosition m pid user)
      = (getPosition m pid user).amount := by
  by_cases hact : (getPosition m pid user).isActive = true
  · rw [contrib, if_pos ⟨rfl, hact⟩]
  · rw [contrib, if_neg (fun hc => hact hc.2)]
    exact (getPosition_inactive_amount hin pid user (by simpa using hact)).symm

theorem contrib_ne (pid pid0 user : Nat) (p : Position) (h : pid0 ≠ pid) :
    contrib pid ((pid0, user), p) = 0 := by
  rw [contrib, if_neg (fun hc => h hc.1)]

theorem LedgerInv_deposit {s : State} {e : Env} {pid amount : Nat} {out : Out}
    (hInv : LedgerInv s) (h : deposit s e pid amount = .ok out) : LedgerInv out.state := by
  obtain ⟨hnd, hbound, hact, hsum⟩ := hInv
  obtain ⟨hp, hpid, ha, pool1, hup, hout⟩ := deposit_ok h
  subst hout
  have hframe := updatePool_frame hup
  refine ⟨?_, ?_, ?_, ?_⟩
  · simpa [depositResult] using keys_setPosition_nodup pid e.sender _ hnd
  · intro en hen
    simp only [depositResult] at hen ⊢
    rw [List.length_set]
    rcases mem_setPosition hen with rfl | hen
    · exact hpid
    · exact hbound en hen
  · intro en hen
    simp only [depositResult] at hen
    rcases mem_setPosition hen with rfl | hen
    · intro hfalse; cases hfalse
    · exact hact en hen
  · intro pid'
    simp only [depositResult]
    by_cases hpp : pid' = pid
    · subst hpp
      rw [poolAt_set_self _ hpid]
      have hset := activeStake_set pid' pid' e.sender
        { amount := (getPosition s.positions pid' e.sender).amount + amount
          lastRewardBlock := e.blockNumber
          rewardDebt := ((getPosition s.positions pid' e.sender).amount + amount)
            * pool1.accRewardPerShare / PRECISION
          lockEndTime := e.blockTimestamp + pool1.minLockPeriod
          isActive := true } hnd
      rw [contrib_self hact] at hset
      have hnew : contrib pid' ((pid', e.sender),
          ({ amount := (getPosition s.positions pid' e.sender).amount + amount
             lastRewardBlock := e.blockNumber
             rewardDebt := ((getPosition s.positions pid' e.sender).amount + amount)
               * pool1.accRewardPerShare / PRECISION
             lockEndTime := e.blockTimestamp + pool1.minLockPeriod
             isActive := true } : Position))
          = (getPosition s.positions pid' e.sender).amount + amount := by
        rw [contrib, if_pos ⟨rfl, rfl⟩]
      rw [hnew] at hset
      have hold := hsum pid'
      have hts : pool1.totalStaked = (poolAt s.poolInfo pid').totalStaked := hframe.2.2.2.1
      simp only []
      omega
    · rw [poolAt_set_ne _ _ (fun hh => hpp hh.symm)]
      have hset := activeStake_set pid' pid e.sender
        { amount := (getPosition s.positions pid e.sender).amount + amount
          lastRewardBlock := e.blockNumber
          rewardDebt := ((getPosition s.positions pid e.sender).amount + amount)
            * pool1.accRewardPerShare / PRECISION
          lockEndTime := e.blockTimestamp + pool1.minLockPeriod
          isActive := true } hnd
      rw [contrib_ne pid' pid e.sender _ (fun hh => hpp hh.symm),
        contrib_ne pid' pid e.sender _ (fun hh => hpp hh.symm)] at hset
      have hold := hsum pid'
      omega

theorem contrib_own (pid user : Nat) (p : Position) :
    contrib pid ((pid, user), p) = if p.isActive = true then p.amount else 0 := by
  unfold contrib
  by_cases hb : p.isActive = true
  · rw [if_pos ⟨rfl, hb⟩, if_pos hb]
  · rw [if_neg (fun hc => hb hc.2), if_neg hb]

theorem contrib_withdrawn (pid user : Nat) (q : Position) (amount acc : Nat)
    (hq0 : q.amount ≠ 0 → q.isActive = true) :
    contrib pid ((pid, user), withdrawnPosition q amount acc) = q.amount - amount := by
  rw [contrib_own]
  unfold withdrawnPosition
  dsimp only
  by_cases hz : q.amount - amount = 0
  · rw [if_pos hz, if_neg (by simp)]
    omega
  · rw [if_neg hz, if_pos (hq0 (by omega))]

theorem contrib_emergency (pid user : Nat) (q : Position) :
    contrib pid ((pid, user), emergencyPosition q) = 0 := by
  rw [contrib_own]
  unfold emergencyPosition
  simp

theorem LedgerInv_withdraw {s : State} {e : Env} {pid amount : Nat} {out : Out}
    (hInv : LedgerInv s) (h : withdraw s e pid amount = .ok out) : LedgerInv out.state := by
  obtain ⟨hnd, hbound, hact, hsum⟩ := hInv
  obtain ⟨hpid, hle, hlock, pool1, hup, hout⟩ := withdraw_ok h
  subst hout
  have hframe := updatePool_frame hup
  have hq0 : (getPosition s.positions pid e.sender).amount ≠ 0 →
      (getPosition s.positions pid e.sender).isActive = true := by
    intro hne
    by_contra hfalse
    exact hne (getPosition_inactive_amount hact pid e.sender (by simpa using hfalse))
  refine ⟨?_, ?_, ?_, ?_⟩
  · simpa [withdrawResult] using keys_setPosition_nodup pid e.sender _ hnd
  · intro en hen
    simp only [withdrawResult] at hen ⊢
    rw [List.length_set]
    rcases mem_setPosition hen with rfl | hen
    · exact hpid
    · exact hbound en hen
  · intro en hen
    simp only [withdrawResult] at hen
    rcases mem_setPosition hen with rfl | hen
    · intro hfalse
      unfold withdrawnPosition at hfalse ⊢
      simp only at hfalse ⊢
      by_cases hz : (getPosition s.positions pid e.sender).amount - amount = 0
      · exact hz
      · rw [if_neg hz] at hfalse
        have := getPosition_inactive_amount hact pid e.sender hfalse
        omega
    · exact hact en hen
  · intro pid'
    simp only [withdrawResult]
    by_cases hpp : pid' = pid
    · subst hpp
      rw [poolAt_set_self _ hpid]
      have hset := activeStake_set pid' pid' e.sender
        (withdrawnPosition (getPosition s.positions pid' e.sender) amount
          pool1.accRewardPerShare) hnd
      rw [contrib_self hact, contrib_withdrawn pid' e.sender _ amount _ hq0] at hset
      have hold := hsum pid'
      have hts : pool1.totalStaked = (poolAt s.poolInfo pid').totalStaked := hframe.2.2.2.1
      simp only []
      omega
    · rw [poolAt_set_ne _ _ (fun hh => hpp hh.symm)]
      have hset := activeStake_set pid' pid e.sender
        (withdrawnPosition (getPosition s.positions pid e.sender) amount
          pool1.accRewardPerShare) hnd
      rw [contrib_ne pid' pid e.sender _ (fun hh => hpp hh.symm),
        contrib_ne pid' pid e.sender _ (fun hh => hpp hh.symm)] at hset
      have hold := hsum pid'
      omega

theorem LedgerInv_emergencyWithdraw {s : State} {e : Env} {pid : Nat} {out : Out}
    (hInv : LedgerInv s) (h : emergencyWithdraw s e pid = .ok out) : LedgerInv out.state := by
  obtain ⟨hnd, hbound, hact, hsum⟩ := hInv
  obtain ⟨hpid, hamt, hen0, hout⟩ := emergencyWithdraw_ok h
  subst hout
  refine ⟨?_, ?_, ?_, ?_⟩
  · simpa [emergencyResult] using keys_setPosition_nodup pid e.sender _ hnd
  · intro en hen
    simp only [emergencyResult] at hen ⊢
    rw [List.length_set]
    rcases mem_setPosition hen with rfl | hen
    · exact hpid
    · exact hbound en hen
  · intro en hen
    simp only [emergencyResult] at hen
    rcases mem_setPosition hen with rfl | hen
    · intro _
      rfl
    · exact hact en hen
  · intro pid'
    simp only [emergencyResult]
    by_cases hpp : pid' = pid
    · subst hpp
      rw [poolAt_set_self _ hpid]
      have hset := activeStake_set pid' pid' e.sender
        (emergencyPosition (getPosition s.positions pid' e.sender)) hnd
      rw [contrib_self hact, contrib_emergency] at hset
      have hold := hsum pid'
      simp only []
      omega
    · rw [poolAt_set_ne _ _ (fun hh => hpp hh.symm)]
      have hset := activeStake_set pid' pid e.sender
        (emergencyPosition (getPosition s.positions pid e.sender)) hnd
      rw [contrib_ne pid' pid e.sender _ (fun hh => hpp hh.symm),
        contrib_ne pid' pid e.sender _ (fun hh => hpp hh.symm)] at hset
      have hold := hsum pid'
      omega

theorem LedgerInv_addPool {s : State} {e : Env} {st rt ap mlp : Nat} {out : Out}
    (hInv : LedgerInv s) (h : addPool s e st rt ap mlp = .ok out) : LedgerInv out.state := by
  obtain ⟨hnd, hbound, hact, hsum⟩ := hInv
  obtain ⟨hown, hst, hrt, pools1, hup, hout⟩ := addPool_ok h
  subst hout
  obtain ⟨hlen, hframe⟩ := updateAllPools_spec hup
  refine ⟨hnd, ?_, hact, ?_⟩
  · intro en hen
    simp only [List.length_append, hlen, List.length_singleton]
    exact Nat.lt_succ_of_lt (hbound en hen)
  · intro pid'
    by_cases hlt : pid' < pools1.length
    · rw [poolAt_append_lt _ hlt]
      rw [(hframe pid').2.2.2.1]
      exact hsum pid'
    · by_cases heq : pid' = pools1.length
      · rw [heq, poolAt_append_length]
        have hz : activeStake pools1.length s.positions = 0 := by
          apply activeStake_eq_zero
          intro en hen
          have := hbound en hen
          omega
        simp only []
        omega
      · rw [poolAt_len_le (by simp only [List.length_append, List.length_singleton]; omega)]
        have : activeStake pid' s.positions = 0 := by
          apply activeStake_eq_zero
          intro en hen
          have := hbound en hen
          omega
        simp only [emptyPool]
        omega

theorem LedgerInv_setPool1 {s : State} {pid : Nat} {pool1 : PoolInfo}
    (hInv : LedgerInv s) (hpid : pid < s.poolInfo.length)
    (hts : pool1.totalStaked = (poolAt s.poolInfo pid).totalStaked) :
    LedgerInv { s with poolInfo := s.poolInfo.set pid pool1 } := by
  obtain ⟨hnd, hbound, hact, hsum⟩ := hInv
  refine ⟨hnd, ?_, hact, ?_⟩
  · intro en hen
    rw [List.length_set]
    exact hbound en hen
  · intro pid'
    by_cases hpp : pid' = pid
    · subst hpp
      rw [poolAt_set_self _ hpid, hts]
      exact hsum pid'
    · rw [poolAt_set_ne _ _ (fun hh => hpp hh.symm)]
      exact hsum pid'

theorem LedgerInv_pools1 {s : State} {pools1 : List PoolInfo}
    (hInv : LedgerInv s)
    (hlen : pools1.length = s.poolInfo.length)
    (hts : ∀ pid, (poolAt pools1 pid).totalStaked = (poolAt s.poolInfo pid).totalStaked) :
    LedgerInv { s with poolInfo := pools1 } := by
  obtain ⟨hnd, hbound, hact, hsum⟩ := hInv
  refine ⟨hnd, ?_, hact, ?_⟩
  · intro en hen
    rw [hlen]
    exact hbound en hen
  · intro pid'
    rw [hts pid']
    exact hsum pid'

theorem LedgerInv_of_same {s s' : State} (hpos : s'.positions = s.positions)
    (hpool : s'.poolInfo = s.poolInfo) (hInv : LedgerInv s) : LedgerInv s' := by
  obtain ⟨hnd, hbound, hact, hsum⟩ := hInv
  rw [LedgerInv, hpos, hpool]
  exact ⟨hnd, hbound, hact, hsum⟩

theorem LedgerInv_step (s : State) (op : Op) (hInv : LedgerInv s) :
    LedgerInv (step s op) := by
  cases happly : applyOp s op with
  | error err =>
    simpa [step, happly] using hInv
  | ok o =>
    have hs : step s op = o.state := by simp [step, happly]
    rw [hs]
    cases op with
    | addPool e st rt ap mlp => exact LedgerInv_addPool hInv happly
    | deposit e pid amount => exact LedgerInv_deposit hInv happly
    | withdraw e pid amount => exact LedgerInv_withdraw hInv happly
    | emergencyWithdraw e pid => exact LedgerInv_emergencyWithdraw hInv happly
    | rebalancePosition e pid user newAmount =>
      obtain ⟨hmem, hpid, hactv, pool1, hup, hout⟩ := rebalancePosition_ok happly
      subst hout
      exact LedgerInv_setPool1 hInv hpid (updatePool_frame hup).2.2.2.1
    | updatePoolCall e pid =>
      obtain ⟨hpid, pool1, hup, hout⟩ := updatePoolCall_ok happly
      subst hout
      exact LedgerInv_setPool1 hInv hpid (updatePool_frame hup).2.2.2.1
    | massUpdatePoolsCall e =>
      obtain ⟨pools1, hup, hout⟩ := massUpdatePoolsCall_ok happly
      subst hout
      obtain ⟨hlen, hframe⟩ := updateAllPools_spec hup
      exact LedgerInv_pools1 hInv hlen (fun pid => (hframe pid).2.2.2.1)
    | setRewardPerBlock e v =>
      obtain ⟨hown, pools1, hup, hout⟩ := setRewardPerBlock_ok happly
      subst hout
      obtain ⟨hlen, hframe⟩ := updateAllPools_spec hup
      refine LedgerInv_of_same rfl rfl (LedgerInv_pools1 hInv hlen
        (fun pid => (hframe pid).2.2.2.1))
    | setEmergencyWithdrawFee e fee =>
      obtain ⟨hown, hfee, hout⟩ := setEmergencyWithdrawFee_ok happly
      subst hout
      exact LedgerInv_of_same rfl rfl hInv
    | toggleEmergencyWithdraw e pid enabled =>
      obtain ⟨hown, hpid, hout⟩ := toggleEmergencyWithdraw_ok happly
      subst hout
      exact LedgerInv_setPool1 hInv hpid rfl
    | setAuthorizedRebalancer e a authorized =>
      obtain ⟨hown, hout⟩ := setAuthorizedRebalancer_ok happly
      subst hout
      exact LedgerInv_of_same rfl rfl hInv
    | pauseCall e =>
      obtain ⟨hown, hpau, hout⟩ := pauseCall_ok happly
      subst hout
      exact LedgerInv_of_same rfl rfl hInv
    | unpauseCall e =>
      obtain ⟨hown, hpau, hout⟩ := unpauseCall_ok happly
      subst hout
      exact LedgerInv_of_same rfl rfl hInv
    | transferOwnership e newOwner =>
      obtain ⟨hown, hnz, hout⟩ := transferOwnership_ok happly
      subst hout
      exact LedgerInv_of_same rfl rfl hInv
    | renounceOwnership e =>
      obtain ⟨hown, hout⟩ := renounceOwnership_ok happly
      subst hout
      exact LedgerInv_of_same rfl rfl hInv

theorem LedgerInv_initState (deployer : Nat) : LedgerInv (initState deployer) := by
  refine ⟨List.nodup_nil, ?_, ?_, ?_⟩
  · intro en hen
    cases hen
  · intro en hen
    cases hen
  · intro pid
    rfl

theorem LedgerInv_run (s : State) (ops : List Op) (hInv : LedgerInv s) :
    LedgerInv (run s ops) := by
  induction ops generalizing s with
  | nil => exact hInv
  | cons op ops ih => exact ih (step s op) (LedgerInv_step s op hInv)

theorem Reachable.ledgerInv {s : State} (h : Reachable s) : LedgerInv s := by
  obtain ⟨deployer, ops, rfl⟩ := h
  exact LedgerInv_run _ ops (LedgerInv_initState deployer)

/-! ### Further helper lemmas -/

theorem updatePool_last {r t b : Nat} {p q : PoolInfo}
    (h : updatePool r t b p = some q) : b ≤ q.lastRewardBlock := by
  unfold updatePool at h
  split at h
  · injection h with h
    subst h
    omega
  · split at h
    · injection h with h
      subst h
      exact Nat.le_refl b
    · split at h
      · cases h
      · injection h with h
        subst h
        exact Nat.le_refl b

theorem deposit_eq_ok {s : State} {e : Env} {pid amount : Nat} {pool1 : PoolInfo}
    (hp : s.paused = false) (hpid : pid < s.poolInfo.length) (ha : amount ≠ 0)
    (hup : updatePool s.rewardPerBlock s.totalAllocPoint e.blockNumber (poolAt s.poolInfo pid)
      = some pool1) :
    deposit s e pid amount = .ok (depositResult s e pid amount pool1) := by
  rw [deposit, if_neg (by simp [hp]), if_pos hpid, if_neg ha, hup]

theorem withdraw_eq_ok {s : State} {e : Env} {pid amount : Nat} {pool1 : PoolInfo}
    (hpid : pid < s.poolInfo.length)
    (hle : ¬ (getPosition s.positions pid e.sender).amount < amount)
    (hlock : ¬ e.blockTimestamp < (getPosition s.positions pid e.sender).lockEndTime)
    (hup : updatePool s.rewardPerBlock s.totalAllocPoint e.blockNumber (poolAt s.poolInfo pid)
      = some pool1) :
    withdraw s e pid amount = .ok (withdrawResult s e pid amount pool1) := by
  rw [withdraw, if_pos hpid, if_neg hle, if_neg hlock, hup]

/-! ### Claim theorems -/

/-- C1: `updatePool`, for every pool and every current height: when
`currentHeight ≤ lastAccrualHeight` it returns with the pool unchanged;
when `totalStaked = 0` it only advances `lastAccrualHeight`; otherwise
(with a nonzero divisor) it adds
`(elapsed * rewardPerBlock * allocPoint / totalAllocPoint) * 1e12 / totalStaked`
to `accRewardPerShare` (truncating divisions) and advances
`lastAccrualHeight`. -/
theorem C1_updatePool_spec (rpb tap bn : Nat) (pool : PoolInfo) :
    (bn ≤ pool.lastRewardBlock → updatePool rpb tap bn pool = some pool) ∧
    (pool.lastRewardBlock < bn → pool.totalStaked = 0 →
      updatePool rpb tap bn pool = some { pool with lastRewardBlock := bn }) ∧
    (pool.lastRewardBlock < bn → pool.totalStaked ≠ 0 → tap ≠ 0 →
      updatePool rpb tap bn pool = some { pool with accRewardPerShare := pool.accRewardPerShare + ((bn - pool.lastRewardBlock) * rpb * pool.allocPoint / tap) * PRECISION / pool.totalStaked, lastRewardBlock := bn }) := by
  refine ⟨?_, ?_, ?_⟩
  · intro h
    rw [updatePool, if_pos h]
  · intro h1 h2
    rw [updatePool, if_neg (by omega), if_pos h2]
  · intro h1 h2 h3
    rw [updatePool, if_neg (by omega), if_neg h2, if_neg h3]

def poolC1 : PoolInfo :=
  { stakingToken := 1, rewardToken := 2, allocPoint := 50, lastRewardBlock := 4,
    accRewardPerShare := 3, totalStaked := 100, minLockPeriod := 0,
    isEmergencyWithdrawEnabled := false }

/-- Witness for C1: heights 4 → 10, `rewardPerBlock = 7`, weight 50 of
11 total: reward = 6*7*50/11 = 190, accumulator gains 190e12/100. -/
theorem C1_updatePool_spec_witness :
    updatePool 7 11 10 poolC1 = some
      { stakingToken := 1, rewardToken := 2, allocPoint := 50, lastRewardBlock := 10,
        accRewardPerShare := 1900000000003, totalStaked := 100, minLockPeriod := 0,
        isEmergencyWithdrawEnabled := false } :=
  (C1_updatePool_spec 7 11 10 poolC1).2.2 (by decide) (by decide) (by decide)

/-- C2: in every reachable state, each pool's `totalStaked` equals the
sum of `amount` over the active positions of that pool. -/
theorem C2_totalStaked_eq_activeStake {s : State} (h : Reachable s) (pid : Nat)
    (_hpid : pid < s.poolInfo.length) :
    (poolAt s.poolInfo pid).totalStaked = activeStake pid s.positions :=
  h.ledgerInv.2.2.2 pid

def opsC2 : List Op :=
  [Op.addPool ⟨0, 0, 9, 0⟩ 1 2 50 10,
   Op.deposit ⟨0, 5, 7, 0⟩ 0 1000,
   Op.deposit ⟨2, 6, 8, 0⟩ 0 300,
   Op.withdraw ⟨2, 40, 7, 10 ^ 30⟩ 0 400]

/-- Witness for C2 on a concrete reachable state with two stakers and a
partial withdrawal. -/
theorem C2_totalStaked_eq_activeStake_witness :
    0 < (run (initState 9) opsC2).poolInfo.length ∧
    (poolAt (run (initState 9) opsC2).poolInfo 0).totalStaked
      = activeStake 0 (run (initState 9) opsC2).positions :=
  ⟨by decide, C2_totalStaked_eq_activeStake ⟨9, opsC2, rfl⟩ 0 (by decide)⟩

theorem poolAcc_le_set {l : List PoolInfo} {pid0 : Nat} {p1 : PoolInfo}
    (hpid : pid0 < l.length)
    (hacc : (poolAt l pid0).accRewardPerShare ≤ p1.accRewardPerShare) (pid : Nat) :
    (poolAt l pid).accRewardPerShare ≤ (poolAt (l.set pid0 p1) pid).accRewardPerShare := by
  by_cases hpp : pid = pid0
  · rw [hpp, poolAt_set_self _ hpid]
    exact hacc
  · rw [poolAt_set_ne _ _ (fun hh => hpp hh.symm)]

theorem poolAcc_le_append (l l2 : List PoolInfo) (pid : Nat) :
    (poolAt l pid).accRewardPerShare ≤ (poolAt (l ++ l2) pid).accRewardPerShare := by
  by_cases h : pid < l.length
  · rw [poolAt_append_lt _ h]
  · rw [poolAt_len_le (Nat.not_lt.mp h)]
    exact Nat.zero_le _

theorem poolAcc_le_step (s : State) (op : Op) (pid : Nat) :
    poolAcc s pid ≤ poolAcc (step s op) pid := by
  cases happly : applyOp s op with
  | error err => simp [step, happly]
  | ok o =>
    have hs : step s op = o.state := by simp [step, happly]
    rw [hs]
    unfold poolAcc
    cases op with
    | addPool e st rt ap mlp =>
      obtain ⟨_, _, _, pools1, hup, hout⟩ := addPool_ok happly
      subst hout
      obtain ⟨hlen, hframe⟩ := updateAllPools_spec hup
      exact Nat.le_trans (hframe pid).2.2.2.2.2.2 (poolAcc_le_append pools1 _ pid)
    | deposit e pid0 amount =>
      obtain ⟨_, hpid0, _, pool1, hup, hout⟩ := deposit_ok happly
      subst hout
      simp only [depositResult]
      refine poolAcc_le_set hpid0 ?_ pid
      exact (updatePool_frame hup).2.2.2.2.2.2
    | withdraw e pid0 amount =>
      obtain ⟨hpid0, _, _, pool1, hup, hout⟩ := withdraw_ok happly
      subst hout
      simp only [withdrawResult]
      refine poolAcc_le_set hpid0 ?_ pid
      exact (updatePool_frame hup).2.2.2.2.2.2
    | emergencyWithdraw e pid0 =>
      obtain ⟨hpid0, _, _, hout⟩ := emergencyWithdraw_ok happly
      subst hout
      simp only [emergencyResult]
      refine poolAcc_le_set hpid0 ?_ pid
      exact Nat.le_refl _
    | rebalancePosition e pid0 user newAmount =>
      obtain ⟨_, hpid0, _, pool1, hup, hout⟩ := rebalancePosition_ok happly
      subst hout
      exact poolAcc_le_set hpid0 (updatePool_frame hup).2.2.2.2.2.2 pid
    | updatePoolCall e pid0 =>
      obtain ⟨hpid0, pool1, hup, hout⟩ := updatePoolCall_ok happly
      subst hout
      exact poolAcc_le_set hpid0 (updatePool_frame hup).2.2.2.2.2.2 pid
    | massUpdatePoolsCall e =>
      obtain ⟨pools1, hup, hout⟩ := massUpdatePoolsCall_ok happly
      subst hout
      exact ((updateAllPools_spec hup).2 pid).2.2.2.2.2.2
    | setRewardPerBlock e v =>
      obtain ⟨_, pools1, hup, hout⟩ := setRewardPerBlock_ok happly
      subst hout
      exact ((updateAllPools_spec hup).2 pid).2.2.2.2.2.2
    | setEmergencyWithdrawFee e fee =>
      obtain ⟨_, _, hout⟩ := setEmergencyWithdrawFee_ok happly
      subst hout
      exact Nat.le_refl _
    | toggleEmergencyWithdraw e pid0 enabled =>
      obtain ⟨_, hpid0, hout⟩ := toggleEmergencyWithdraw_ok happly
      subst hout
      refine poolAcc_le_set hpid0 ?_ pid
      exact Nat.le_refl _
    | setAuthorizedRebalancer e a authorized =>
      obtain ⟨_, hout⟩ := setAuthorizedRebalancer_ok happly
      subst hout
      exact Nat.le_refl _
    | pauseCall e =>
      obtain ⟨_, _, hout⟩ := pauseCall_ok happly
      subst hout
      exact Nat.le_refl _
    | unpauseCall e =>
      obtain ⟨_, _, hout⟩ := unpauseCall_ok happly
      subst hout
      exact Nat.le_refl _
    | transferOwnership e newOwner =>
      obtain ⟨_, _, hout⟩ := transferOwnership_ok happly
      subst hout
      exact Nat.le_refl _
    | renounceOwnership e =>
      obtain ⟨_, hout⟩ := renounceOwnership_ok happly
      subst hout
      exact Nat.le_refl _

/-- C3: a pool's `accRewardPerShare` never decreases across any
sequence of operations (deposits, withdrawals, emergency exits,
rebalances, pool additions and all admin setters). -/
theorem C3_accRewardPerShare_monotone (s : State) (ops : List Op) (pid : Nat) :
    poolAcc s pid ≤ poolAcc (run s ops) pid := by
  induction ops generalizing s with
  | nil => exact Nat.le_refl _
  | cons op ops ih => exact Nat.le_trans (poolAcc_le_step s op pid) (ih (step s op))

/-- C4: with emergency withdrawal enabled and a nonzero position,
`emergencyWithdraw` succeeds regardless of lock or reward state, pays
exactly `amount - floor(amount * feeBps / 10000)` of the staking asset,
zeroes the position, removes the full pre-fee amount from
`totalStaked`, performs no accrual and no reward settlement, and emits
the emergency-withdraw event with the post-fee amount. -/
theorem C4_emergencyWithdraw_spec {s : State} {e : Env} {pid : Nat}
    (hpid : pid < s.poolInfo.length)
    (hen : (poolAt s.poolInfo pid).isEmergencyWithdrawEnabled = true)
    (hamt : 0 < (getPosition s.positions pid e.sender).amount) :
    emergencyWithdraw s e pid = .ok (emergencyResult s e pid) ∧
    (emergencyResult s e pid).transfers
      = [Transfer.stakeOut (poolAt s.poolInfo pid).stakingToken e.sender
          ((getPosition s.positions pid e.sender).amount
            - (getPosition s.positions pid e.sender).amount * s.emergencyWithdrawFee / 10000)] ∧
    (emergencyResult s e pid).events
      = [Event.emergencyWithdrawn e.sender pid
          ((getPosition s.positions pid e.sender).amount
            - (getPosition s.positions pid e.sender).amount * s.emergencyWithdrawFee / 10000)] ∧
    getPosition (emergencyResult s e pid).state.positions pid e.sender
      = emergencyPosition (getPosition s.positions pid e.sender) ∧
    (poolAt (emergencyResult s e pid).state.poolInfo pid).totalStaked
      = (poolAt s.poolInfo pid).totalStaked - (getPosition s.positions pid e.sender).amount ∧
    (poolAt (emergencyResult s e pid).state.poolInfo pid).accRewardPerShare
      = (poolAt s.poolInfo pid).accRewardPerShare ∧
    (poolAt (emergencyResult s e pid).state.poolInfo pid).lastRewardBlock
      = (poolAt s.poolInfo pid).lastRewardBlock := by
  refine ⟨?_, rfl, rfl, ?_, ?_, ?_, ?_⟩
  · rw [emergencyWithdraw, if_pos hpid, if_neg (by omega), if_neg (by simp [hen])]
  · simp only [emergencyResult]
    exact getPosition_set_self _ _ _ _
  · simp only [emergencyResult]
    rw [poolAt_set_self _ hpid]
  · simp only [emergencyResult]
    rw [poolAt_set_self _ hpid]
  · simp only [emergencyResult]
    rw [poolAt_set_self _ hpid]

def poolC4 : PoolInfo :=
  { stakingToken := 3, rewardToken := 4, allocPoint := 10, lastRewardBlock := 0,
    accRewardPerShare := 5 * PRECISION, totalStaked := 777, minLockPeriod := 1000,
    isEmergencyWithdrawEnabled := true }

def posC4 : Position :=
  { amount := 777, lastRewardBlock := 0, rewardDebt := 0, lockEndTime := 10 ^ 9,
    isActive := true }

def sC4 : State :=
  { poolInfo := [poolC4]
    positions := [((0, 7), posC4)]
    authorizedRebalancers := [9]
    rewardPerBlock := 10 ^ 18
    totalAllocPoint := 10
    emergencyWithdrawFee := 500
    paused := false
    owner := 9 }

/-- Witness for C4: a still-locked position of 777 with a 5% fee pays
`777 - floor(777*500/10000) = 777 - 38 = 739` and is zeroed. -/
theorem C4_emergencyWithdraw_spec_witness :
    emergencyWithdraw sC4 ⟨1, 1, 7, 0⟩ 0 = .ok (emergencyResult sC4 ⟨1, 1, 7, 0⟩ 0) ∧
    (emergencyResult sC4 ⟨1, 1, 7, 0⟩ 0).transfers = [Transfer.stakeOut 3 7 739] ∧
    (emergencyResult sC4 ⟨1, 1, 7, 0⟩ 0).events = [Event.emergencyWithdrawn 7 0 739] ∧
    getPosition (emergencyResult sC4 ⟨1, 1, 7, 0⟩ 0).state.positions 0 7
      = { amount := 0, lastRewardBlock := 0, rewardDebt := 0, lockEndTime := 10 ^ 9,
          isActive := false } ∧
    (poolAt (emergencyResult sC4 ⟨1, 1, 7, 0⟩ 0).state.poolInfo 0).totalStaked = 0 := by
  have h := @C4_emergencyWithdraw_spec sC4 ⟨1, 1, 7, 0⟩ 0 (by decide) (by decide) (by decide)
  exact ⟨h.1, by decide, by decide, by decide, by decide⟩

theorem safeRewardPaid_min (bal amt : Nat) : safeRewardPaid bal amt = min amt bal := by
  unfold safeRewardPaid
  split <;> omega

/-- C5: in the reward settlement of `deposit` and `withdraw`, the
amount actually transferred is the accrued pending reward capped at the
contract's reward-token balance (`min pending balance`), and whether
the operation succeeds never depends on that balance — a shortfall is a
silent partial payout, not an error. -/
theorem C5_reward_capped (s : State) (e : Env) (pid amount b : Nat) :
    (∀ out p, deposit s e pid amount = .ok out →
        Event.rewardClaimed e.sender pid p ∈ out.events →
        ∃ tok, Transfer.rewardOut tok e.sender (min p e.rewardBal) ∈ out.transfers) ∧
    (∀ out p, withdraw s e pid amount = .ok out →
        Event.rewardClaimed e.sender pid p ∈ out.events →
        ∃ tok, Transfer.rewardOut tok e.sender (min p e.rewardBal) ∈ out.transfers) ∧
    ((∃ out, deposit s e pid amount = .ok out) ↔
      (∃ out, deposit s { e with rewardBal := b } pid amount = .ok out)) ∧
    ((∃ out, withdraw s e pid amount = .ok out) ↔
      (∃ out, withdraw s { e with rewardBal := b } pid amount = .ok out)) := by
  refine ⟨?_, ?_, ?_, ?_⟩
  · intro out p hout hmem
    obtain ⟨hp, hpid, ha, pool1, hup, rfl⟩ := deposit_ok hout
    simp only [depositResult] at hmem ⊢
    rcases List.mem_append.mp hmem with hmem | hmem
    · unfold settleIfExisting at hmem
      by_cases h1 : (getPosition s.positions pid e.sender).amount > 0
      · rw [if_pos h1] at hmem
        unfold settlePending at hmem
        by_cases h2 : (getPosition s.positions pid e.sender).amount
            * pool1.accRewardPerShare / PRECISION
            - (getPosition s.positions pid e.sender).rewardDebt > 0
        · rw [if_pos h2] at hmem
          simp only [List.mem_singleton] at hmem
          have hp' : p = (getPosition s.positions pid e.sender).amount
              * pool1.accRewardPerShare / PRECISION
              - (getPosition s.positions pid e.sender).rewardDebt := by
            injection hmem
          refine ⟨pool1.rewardToken, List.mem_append_left _ ?_⟩
          unfold settleIfExisting
          rw [if_pos h1]
          unfold settlePending
          rw [if_pos h2, safeRewardPaid_min, hp']
          exact List.mem_singleton.mpr rfl
        · rw [if_neg h2] at hmem
          cases hmem
      · rw [if_neg h1] at hmem
        cases hmem
    · simp at hmem
  · intro out p hout hmem
    obtain ⟨hpid, hle, hlock, pool1, hup, rfl⟩ := withdraw_ok hout
    simp only [withdrawResult] at hmem ⊢
    rcases List.mem_append.mp hmem with hmem | hmem
    · unfold settlePending at hmem
      by_cases h2 : (getPosition s.positions pid e.sender).amount
          * pool1.accRewardPerShare / PRECISION
          - (getPosition s.positions pid e.sender).rewardDebt > 0
      · rw [if_pos h2] at hmem
        simp only [List.mem_singleton] at hmem
        have hp' : p = (getPosition s.positions pid e.sender).amount
            * pool1.accRewardPerShare / PRECISION
            - (getPosition s.positions pid e.sender).rewardDebt := by
          injection hmem
        refine ⟨pool1.rewardToken, List.mem_append_left _ ?_⟩
        unfold settlePending
        rw [if_pos h2, safeRewardPaid_min, hp']
        exact List.mem_singleton.mpr rfl
      · rw [if_neg h2] at hmem
        cases hmem
    · simp at hmem
  · constructor
    · rintro ⟨out, hout⟩
      obtain ⟨hp, hpid, ha, pool1, hup, _⟩ := deposit_ok hout
      exact ⟨_, @deposit_eq_ok s { e with rewardBal := b } pid amount pool1 hp hpid ha hup⟩
    · rintro ⟨out, hout⟩
      obtain ⟨hp, hpid, ha, pool1, hup, _⟩ := deposit_ok hout
      exact ⟨_, @deposit_eq_ok s e pid amount pool1 hp hpid ha hup⟩
  · constructor
    · rintro ⟨out, hout⟩
      obtain ⟨hpid, hle, hlock, pool1, hup, _⟩ := withdraw_ok hout
      refine ⟨_, @withdraw_eq_ok s { e with rewardBal := b } pid amount pool1 hpid ?_ ?_ hup⟩
      · show ¬ (getPosition s.positions pid e.sender).amount < amount
        omega
      · show ¬ e.blockTimestamp < (getPosition s.positions pid e.sender).lockEndTime
        omega
    · rintro ⟨out, hout⟩
      obtain ⟨hpid, hle, hlock, pool1, hup, _⟩ := withdraw_ok hout
      have hle2 : amount ≤ (getPosition s.positions pid e.sender).amount := hle
      have hlock2 : (getPosition s.positions pid e.sender).lockEndTime ≤ e.blockTimestamp := hlock
      exact ⟨_, @withdraw_eq_ok s e pid amount pool1 hpid (by omega) (by omega) hup⟩

def poolC5 : PoolInfo :=
  { stakingToken := 1, rewardToken := 2, allocPoint := 10, lastRewardBlock := 0,
    accRewardPerShare := 2 * PRECISION, totalStaked := 100, minLockPeriod := 0,
    isEmergencyWithdrawEnabled := false }

def posC5 : Position :=
  { amount := 100, lastRewardBlock := 0, rewardDebt := 0, lockEndTime := 0,
    isActive := true }

def sC5 : State :=
  { poolInfo := [poolC5]
    positions := [((0, 7), posC5)]
    authorizedRebalancers := [9]
    rewardPerBlock := 10 ^ 18
    totalAllocPoint := 10
    emergencyWithdrawFee := 500
    paused := false
    owner := 9 }

def outC5 : Out := depositResult sC5 ⟨0, 0, 7, 5⟩ 0 50 poolC5

/-- Witness for C5: a deposit whose accrued reward of 200 exceeds the
custody balance 5 pays out exactly `min 200 5 = 5`. -/
theorem C5_reward_capped_witness :
    Event.rewardClaimed 7 0 200 ∈ outC5.events ∧
    ∃ tok, Transfer.rewardOut tok 7 (min 200 5) ∈ outC5.transfers :=
  ⟨by decide,
    (C5_reward_capped sC5 ⟨0, 0, 7, 5⟩ 0 50 0).1 outC5 200 rfl (by decide)⟩

theorem withdraw_paused (s : State) (b : Bool) (e : Env) (pid amount : Nat) :
    withdraw { s with paused := b } e pid amount
      = Except.map (fun o => { o with state := { o.state with paused := b } })
          (withdraw s e pid amount) := by
  unfold withdraw
  dsimp only
  by_cases h1 : pid < s.poolInfo.length
  · rw [if_pos h1, if_pos h1]
    by_cases h2 : (getPosition s.positions pid e.sender).amount < amount
    · rw [if_pos h2, if_pos h2]
      rfl
    · rw [if_neg h2, if_neg h2]
      by_cases h3 : e.blockTimestamp < (getPosition s.positions pid e.sender).lockEndTime
      · rw [if_pos h3, if_pos h3]
        rfl
      · rw [if_neg h3, if_neg h3]
        cases hup : updatePool s.rewardPerBlock s.totalAllocPoint e.blockNumber
            (poolAt s.poolInfo pid) with
        | none => rfl
        | some pool1 => rfl
  · rw [if_neg h1, if_neg h1]
    rfl

theorem emergencyWithdraw_paused (s : State) (b : Bool) (e : Env) (pid : Nat) :
    emergencyWithdraw { s with paused := b } e pid
      = Except.map (fun o => { o with state := { o.state with paused := b } })
          (emergencyWithdraw s e pid) := by
  unfold emergencyWithdraw
  dsimp only
  by_cases h1 : pid < s.poolInfo.length
  · rw [if_pos h1, if_pos h1]
    by_cases h2 : (getPosition s.positions pid e.sender).amount = 0
    · rw [if_pos h2, if_pos h2]
      rfl
    · rw [if_neg h2, if_neg h2]
      by_cases h3 : (poolAt s.poolInfo pid).isEmergencyWithdrawEnabled = false
      · rw [if_pos h3, if_pos h3]
        rfl
      · rw [if_neg h3, if_neg h3]
        rfl
  · rw [if_neg h1, if_neg h1]
    rfl

/-- C6: while paused, `deposit` is rejected with the pause error and
leaves the state unchanged, whereas `withdraw` and `emergencyWithdraw`
behave exactly as in the corresponding unpaused state (same
error/success, transfers, events and storage, apart from the pause flag
itself). -/
theorem C6_pause_asymmetry (s : State) (e : Env) (pid amount : Nat)
    (hp : s.paused = true) :
    deposit s e pid amount = .error .systemPaused ∧
    step s (Op.deposit e pid amount) = s ∧
    withdraw s e pid amount
      = Except.map (fun o => { o with state := { o.state with paused := true } })
          (withdraw { s with paused := false } e pid amount) ∧
    emergencyWithdraw s e pid
      = Except.map (fun o => { o with state := { o.state with paused := true } })
          (emergencyWithdraw { s with paused := false } e pid) := by
  have hdep : deposit s e pid amount = .error .systemPaused := by
    rw [deposit, if_pos (by simp [hp])]
  have hself : { s with paused := true } = s := by
    rw [← hp]
  refine ⟨hdep, ?_, ?_, ?_⟩
  · simp [step, applyOp, hdep]
  · have := withdraw_paused { s with paused := false } true e pid amount
    simpa [hself] using this
  · have := emergencyWithdraw_paused { s with paused := false } true e pid
    simpa [hself] using this

def sC6 : State :=
  { poolInfo := [poolC5]
    positions := [((0, 7), posC5)]
    authorizedRebalancers := [9]
    rewardPerBlock := 10 ^ 18
    totalAllocPoint := 10
    emergencyWithdrawFee := 500
    paused := true
    owner := 9 }

/-- Witness for C6 at a concrete paused state. -/
theorem C6_pause_asymmetry_witness :
    deposit sC6 ⟨0, 0, 7, 0⟩ 0 5 = .error .systemPaused ∧
    step sC6 (Op.deposit ⟨0, 0, 7, 0⟩ 0 5) = sC6 ∧
    withdraw sC6 ⟨0, 0, 7, 0⟩ 0 5
      = Except.map (fun o => { o with state := { o.state with paused := true } })
          (withdraw { sC6 with paused := false } ⟨0, 0, 7, 0⟩ 0 5) ∧
    emergencyWithdraw sC6 ⟨0, 0, 7, 0⟩ 0
      = Except.map (fun o => { o with state := { o.state with paused := true } })
          (emergencyWithdraw { sC6 with paused := false } ⟨0, 0, 7, 0⟩ 0) :=
  C6_pause_asymmetry sC6 ⟨0, 0, 7, 0⟩ 0 5 rfl

/-- C7: depositing `X` and then immediately withdrawing `X` at or after
lock expiry, with no elapsed accrual height between the two calls, pays
zero reward and returns exactly `X` of the staking asset: the withdraw
succeeds and its only transfer is the principal, its only event the
withdraw event. -/
theorem C7_roundtrip {s : State} {e1 e2 : Env} {pid X : Nat} {out1 : Out}
    (hd : deposit s e1 pid X = .ok out1)
    (hbn : e2.blockNumber = e1.blockNumber)
    (hsender : e2.sender = e1.sender)
    (hlock : e1.blockTimestamp + (poolAt s.poolInfo pid).minLockPeriod ≤ e2.blockTimestamp) :
    ∃ out2, withdraw out1.state e2 pid X = .ok out2 ∧
      out2.transfers = [Transfer.stakeOut (poolAt s.poolInfo pid).stakingToken e1.sender X] ∧
      out2.events = [Event.withdrawn e1.sender pid X] := by
  obtain ⟨hp, hpid, ha, pool1, hup, hout⟩ := deposit_ok hd
  subst hout
  have hframe := updatePool_frame hup
  have hlast : e1.blockNumber ≤ pool1.lastRewardBlock := updatePool_last hup
  have hpos1 : getPosition (depositResult s e1 pid X pool1).state.positions pid e2.sender
      = { amount := (getPosition s.positions pid e1.sender).amount + X
          lastRewardBlock := e1.blockNumber
          rewardDebt := ((getPosition s.positions pid e1.sender).amount + X)
            * pool1.accRewardPerShare / PRECISION
          lockEndTime := e1.blockTimestamp + pool1.minLockPeriod
          isActive := true } := by
    rw [hsender]
    simp only [depositResult]
    exact getPosition_set_self _ _ _ _
  have hpool2 : poolAt (depositResult s e1 pid X pool1).state.poolInfo pid
      = { pool1 with totalStaked := pool1.totalStaked + X } := by
    simp only [depositResult]
    exact poolAt_set_self _ hpid
  have hlen1 : pid < (depositResult s e1 pid X pool1).state.poolInfo.length := by
    simp only [depositResult]
    rw [List.length_set]
    exact hpid
  have hup2 : updatePool (depositResult s e1 pid X pool1).state.rewardPerBlock
      (depositResult s e1 pid X pool1).state.totalAllocPoint e2.blockNumber
      (poolAt (depositResult s e1 pid X pool1).state.poolInfo pid)
      = some ({ pool1 with totalStaked := pool1.totalStaked + X }) := by
    rw [hpool2, updatePool, if_pos (by dsimp only; omega)]
  have hle : ¬ (getPosition (depositResult s e1 pid X pool1).state.positions
      pid e2.sender).amount < X := by
    rw [hpos1]
    dsimp only
    omega
  have hlock2 : ¬ e2.blockTimestamp < (getPosition (depositResult s e1 pid X pool1).state.positions
      pid e2.sender).lockEndTime := by
    rw [hpos1]
    dsimp only
    have hml : pool1.minLockPeriod = (poolAt s.poolInfo pid).minLockPeriod := hframe.2.2.2.2.1
    omega
  have hw := withdraw_eq_ok hlen1 hle hlock2 hup2
  refine ⟨_, hw, ?_, ?_⟩
  · simp only [withdrawResult]
    rw [hpos1]
    dsimp only
    rw [Nat.sub_self]
    unfold settlePending
    rw [if_neg (by decide)]
    rw [hsender, hframe.1]
    rfl
  · simp only [withdrawResult]
    rw [hpos1]
    dsimp only
    rw [Nat.sub_self]
    unfold settlePending
    rw [if_neg (by decide)]
    rw [hsender]
    rfl

def sC7 : State := run (initState 9) [Op.addPool ⟨0, 0, 9, 0⟩ 1 2 50 10]

def poolC7 : PoolInfo :=
  { stakingToken := 1, rewardToken := 2, allocPoint := 50, lastRewardBlock := 5,
    accRewardPerShare := 0, totalStaked := 0, minLockPeriod := 10,
    isEmergencyWithdrawEnabled := false }

/-- Witness for C7: deposit 1000 at height 5 / time 100, withdraw 1000
at height 5 / time 200 (lock of 10 expired): principal returned, no
reward. -/
theorem C7_roundtrip_witness :
    ∃ out2, withdraw (depositResult sC7 ⟨5, 100, 7, 0⟩ 0 1000 poolC7).state
        ⟨5, 200, 7, 123⟩ 0 1000 = .ok out2 ∧
      out2.transfers = [Transfer.stakeOut 1 7 1000] ∧
      out2.events = [Event.withdrawn 7 0 1000] :=
  @C7_roundtrip sC7 ⟨5, 100, 7, 0⟩ ⟨5, 200, 7, 123⟩ 0 1000
    (depositResult sC7 ⟨5, 100, 7, 0⟩ 0 1000 poolC7) (by rfl) rfl rfl (by decide)

/-- C8: `rebalancePosition` is rejected for callers outside
`authorizedRebalancers` and for inactive positions; when it succeeds it
only accrues the pool (same `totalStaked`), leaves every position
untouched, moves no funds, and emits only the rebalance event with the
target amount. -/
theorem C8_rebalance_frame (s : State) (e : Env) (pid user newAmount : Nat) :
    (e.sender ∉ s.authorizedRebalancers →
      rebalancePosition s e pid user newAmount = .error .notAuthorized) ∧
    (e.sender ∈ s.authorizedRebalancers → pid < s.poolInfo.length →
      (getPosition s.positions pid user).isActive = false →
      rebalancePosition s e pid user newAmount = .error .positionNotActive) ∧
    (∀ out, rebalancePosition s e pid user newAmount = .ok out →
      e.sender ∈ s.authorizedRebalancers ∧
      (getPosition s.positions pid user).isActive = true ∧
      out.state.positions = s.positions ∧
      out.transfers = [] ∧
      out.events = [Event.positionRebalanced user pid newAmount] ∧
      ∃ pool1, updatePool s.rewardPerBlock s.totalAllocPoint e.blockNumber
          (poolAt s.poolInfo pid) = some pool1 ∧
        out.state.poolInfo = s.poolInfo.set pid pool1 ∧
        pool1.totalStaked = (poolAt s.poolInfo pid).totalStaked ∧
        (getPosition out.state.positions pid user) = getPosition s.positions pid user) := by
  refine ⟨?_, ?_, ?_⟩
  · intro hmem
    rw [rebalancePosition, if_neg hmem]
  · intro hmem hpid hact
    rw [rebalancePosition, if_pos hmem, if_pos hpid, if_neg (by simp [hact])]
  · intro out hout
    obtain ⟨hmem, hpid, hact, pool1, hup, hout⟩ := rebalancePosition_ok hout
    subst hout
    exact ⟨hmem, hact, rfl, rfl, rfl, pool1, hup,
      rfl, (updatePool_frame hup).2.2.2.1, rfl⟩

def sC8 : State :=
  { poolInfo := [poolC5]
    positions := [((0, 7), posC5)]
    authorizedRebalancers := [9]
    rewardPerBlock := 10 ^ 18
    totalAllocPoint := 10
    emergencyWithdrawFee := 500
    paused := false
    owner := 9 }

def poolC8 : PoolInfo :=
  { stakingToken := 1, rewardToken := 2, allocPoint := 10, lastRewardBlock := 3,
    accRewardPerShare := 2 * PRECISION + 3 * 10 ^ 28, totalStaked := 100,
    minLockPeriod := 0, isEmergencyWithdrawEnabled := false }

def outC8 : Out :=
  { state := { sC8 with poolInfo := sC8.poolInfo.set 0 poolC8 }
    transfers := []
    events := [Event.positionRebalanced 7 0 5555] }

/-- Witness for C8 at a concrete state: an unauthorized caller is
rejected, and an authorized rebalance on an active position only
accrues the pool and emits the event. -/
theorem C8_rebalance_frame_witness :
    rebalancePosition sC8 ⟨3, 3, 4, 0⟩ 0 7 5555 = .error .notAuthorized ∧
    outC8.state.positions = sC8.positions ∧
    outC8.transfers = [] ∧
    outC8.events = [Event.positionRebalanced 7 0 5555] := by
  refine ⟨(C8_rebalance_frame sC8 ⟨3, 3, 4, 0⟩ 0 7 5555).1 (by decide), ?_⟩
  have h := (C8_rebalance_frame sC8 ⟨3, 3, 9, 0⟩ 0 7 5555).2.2 outC8 (by rfl)
  exact ⟨h.2.2.1, h.2.2.2.1, h.2.2.2.2.1⟩

/-- C10: every successful deposit sets the position's `lockEndTime` to
`now + minLockPeriod`, so a top-up re-locks the whole (old + new)
principal, which the position now carries under that single lock. -/
theorem C10_deposit_resets_lock {s : State} {e : Env} {pid amount : Nat} {out : Out}
    (h : deposit s e pid amount = .ok out) :
    (getPosition out.state.positions pid e.sender).lockEndTime
        = e.blockTimestamp + (poolAt s.poolInfo pid).minLockPeriod ∧
    (getPosition out.state.positions pid e.sender).amount
        = (getPosition s.positions pid e.sender).amount + amount ∧
    (getPosition out.state.positions pid e.sender).isActive = true := by
  obtain ⟨hp, hpid, ha, pool1, hup, hout⟩ := deposit_ok h
  subst hout
  have hml : pool1.minLockPeriod = (poolAt s.poolInfo pid).minLockPeriod :=
    (updatePool_frame hup).2.2.2.2.1
  have hget : getPosition (depositResult s e pid amount pool1).state.positions pid e.sender
      = { amount := (getPosition s.positions pid e.sender).amount + amount
          lastRewardBlock := e.blockNumber
          rewardDebt := ((getPosition s.positions pid e.sender).amount + amount)
            * pool1.accRewardPerShare / PRECISION
          lockEndTime := e.blockTimestamp + pool1.minLockPeriod
          isActive := true } := by
    simp only [depositResult]
    exact getPosition_set_self _ _ _ _
  rw [hget]
  exact ⟨by dsimp only; rw [hml], rfl, rfl⟩

def sC10 : State :=
  { poolInfo := [poolC4]
    positions := [((0, 7), posC4)]
    authorizedRebalancers := [9]
    rewardPerBlock := 10 ^ 18
    totalAllocPoint := 10
    emergencyWithdrawFee := 500
    paused := false
    owner := 9 }

/-- Witness for C10: topping up an existing active position (amount
777, old lock 10^9) at time 50 re-locks everything until 50 + 1000. -/
theorem C10_deposit_resets_lock_witness :
    (getPosition (depositResult sC10 ⟨0, 50, 7, 10 ^ 30⟩ 0 223 poolC4).state.positions
        0 7).lockEndTime = 50 + 1000 ∧
    (getPosition (depositResult sC10 ⟨0, 50, 7, 10 ^ 30⟩ 0 223 poolC4).state.positions
        0 7).amount = 777 + 223 := by
  have h := @C10_deposit_resets_lock sC10 ⟨0, 50, 7, 10 ^ 30⟩ 0 223
    (depositResult sC10 ⟨0, 50, 7, 10 ^ 30⟩ 0 223 poolC4) (by rfl)
  exact ⟨h.1, h.2.1⟩

/-! ### C9: zero allocation weight and division by zero -/

def opsC9 : List Op :=
  [Op.addPool ⟨0, 0, 9, 0⟩ 1 2 0 0,
   Op.deposit ⟨0, 5, 7, 0⟩ 0 5]

def badStateC9 : State := run (initState 9) opsC9

/-- C9 counterexample: the state reached by adding a pool with
allocation weight 0 and depositing 5 into it is reachable, has a staked
pool, `totalAllocPoint = 0`, and `updatePool` at the next height hits
the division-by-zero revert — so the claimed safety property fails on
the code. -/
theorem C9_counterexample :
    Reachable badStateC9 ∧
    0 < badStateC9.poolInfo.length ∧
    (poolAt badStateC9.poolInfo 0).totalStaked ≠ 0 ∧
    (poolAt badStateC9.poolInfo 0).lastRewardBlock < 1 ∧
    badStateC9.totalAllocPoint = 0 ∧
    updatePool badStateC9.rewardPerBlock badStateC9.totalAllocPoint 1
      (poolAt badStateC9.poolInfo 0) = none :=
  ⟨⟨9, opsC9, rfl⟩, by decide, by decide, by decide, by decide, by decide⟩

/-- `true` unless the operation is an `addPool` with weight 0. -/
def opPositiveWeight : Op → Bool
  | .addPool _ _ _ ap _ => decide (0 < ap)
  | _ => true

/-- Auxiliary invariant for the amended C9: every existing pool has a
positive weight no larger than `totalAllocPoint`. -/
def WeightInv (s : State) : Prop :=
  ∀ pid, pid < s.poolInfo.length →
    0 < (poolAt s.poolInfo pid).allocPoint ∧
    (poolAt s.poolInfo pid).allocPoint ≤ s.totalAllocPoint

theorem weightInv_step {s : State} {op : Op} (hop : opPositiveWeight op = true)
    (h : WeightInv s) : WeightInv (step s op) := by
  cases happly : applyOp s op with
  | error err => simpa [step, happly] using h
  | ok o =>
    have hs : step s op = o.state := by simp [step, happly]
    rw [hs]
    cases op with
    | addPool e st rt ap mlp =>
      obtain ⟨_, _, _, pools1, hup, hout⟩ := addPool_ok happly
      subst hout
      obtain ⟨hlen, hframe⟩ := updateAllPools_spec hup
      have hap : 0 < ap := by
        simpa [opPositiveWeight] using hop
      intro pid hpid
      simp only [List.length_append, List.length_singleton] at hpid
      by_cases hlt : pid < pools1.length
      · rw [poolAt_append_lt _ hlt]
        have hold := h pid (by omega)
        rw [(hframe pid).2.2.1]
        dsimp only
        omega
      · have hpe : pid = pools1.length := by omega
        rw [hpe, poolAt_append_length]
        dsimp only
        omega
    | deposit e pid0 amount =>
      obtain ⟨_, hpid0, _, pool1, hup, hout⟩ := deposit_ok happly
      subst hout
      simp only [depositResult]
      intro pid hpid
      rw [List.length_set] at hpid
      by_cases hpp : pid = pid0
      · rw [hpp, poolAt_set_self _ hpid0]
        have hold := h pid0 hpid0
        dsimp only
        rw [(updatePool_frame hup).2.2.1]
        exact hold
      · rw [poolAt_set_ne _ _ (fun hh => hpp hh.symm)]
        exact h pid hpid
    | withdraw e pid0 amount =>
      obtain ⟨hpid0, _, _, pool1, hup, hout⟩ := withdraw_ok happly
      subst hout
      simp only [withdrawResult]
      intro pid hpid
      rw [List.length_set] at hpid
      by_cases hpp : pid = pid0
      · rw [hpp, poolAt_set_self _ hpid0]
        have hold := h pid0 hpid0
        dsimp only
        rw [(updatePool_frame hup).2.2.1]
        exact hold
      · rw [poolAt_set_ne _ _ (fun hh => hpp hh.symm)]
        exact h pid hpid
    | emergencyWithdraw e pid0 =>
      obtain ⟨hpid0, _, _, hout⟩ := emergencyWithdraw_ok happly
      subst hout
      simp only [emergencyResult]
      intro pid hpid
      rw [List.length_set] at hpid
      by_cases hpp : pid = pid0
      · rw [hpp, poolAt_set_self _ hpid0]
        exact h pid0 hpid0
      · rw [poolAt_set_ne _ _ (fun hh => hpp hh.symm)]
        exact h pid hpid
    | rebalancePosition e pid0 user newAmount =>
      obtain ⟨_, hpid0, _, pool1, hup, hout⟩ := rebalancePosition_ok happly
      subst hout
      intro pid hpid
      rw [List.length_set] at hpid
      by_cases hpp : pid = pid0
      · rw [hpp, poolAt_set_self _ hpid0, (updatePool_frame hup).2.2.1]
        exact h pid0 hpid0
      · rw [poolAt_set_ne _ _ (fun hh => hpp hh.symm)]
        exact h pid hpid
    | updatePoolCall e pid0 =>
      obtain ⟨hpid0, pool1, hup, hout⟩ := updatePoolCall_ok happly
      subst hout
      intro pid hpid
      rw [List.length_set] at hpid
      by_cases hpp : pid = pid0
      · rw [hpp, poolAt_set_self _ hpid0, (updatePool_frame hup).2.2.1]
        exact h pid0 hpid0
      · rw [poolAt_set_ne _ _ (fun hh => hpp hh.symm)]
        exact h pid hpid
    | massUpdatePoolsCall e =>
      obtain ⟨pools1, hup, hout⟩ := massUpdatePoolsCall_ok happly
      subst hout
      obtain ⟨hlen, hframe⟩ := updateAllPools_spec hup
      intro pid hpid
      rw [hlen] at hpid
      rw [(hframe pid).2.2.1]
      exact h pid hpid
    | setRewardPerBlock e v =>
      obtain ⟨_, pools1, hup, hout⟩ := setRewardPerBlock_ok happly
      subst hout
      obtain ⟨hlen, hframe⟩ := updateAllPools_spec hup
      intro pid hpid
      rw [hlen] at hpid
      rw [(hframe pid).2.2.1]
      exact h pid hpid
    | setEmergencyWithdrawFee e fee =>
      obtain ⟨_, _, hout⟩ := setEmergencyWithdrawFee_ok happly
      subst hout
      exact h
    | toggleEmergencyWithdraw e pid0 enabled =>
      obtain ⟨_, hpid0, hout⟩ := toggleEmergencyWithdraw_ok happly
      subst hout
      intro pid hpid
      rw [List.length_set] at hpid
      by_cases hpp : pid = pid0
      · rw [hpp, poolAt_set_self _ hpid0]
        exact h pid0 hpid0
      · rw [poolAt_set_ne _ _ (fun hh => hpp hh.symm)]
        exact h pid hpid
    | setAuthorizedRebalancer e a authorized =>
      obtain ⟨_, hout⟩ := setAuthorizedRebalancer_ok happly
      subst hout
      exact h
    | pauseCall e =>
      obtain ⟨_, _, hout⟩ := pauseCall_ok happly
      subst hout
      exact h
    | unpauseCall e =>
      obtain ⟨_, _, hout⟩ := unpauseCall_ok happly
      subst hout
      exact h
    | transferOwnership e newOwner =>
      obtain ⟨_, _, hout⟩ := transferOwnership_ok happly
      subst hout
      exact h
    | renounceOwnership e =>
      obtain ⟨_, hout⟩ := renounceOwnership_ok happly
      subst hout
      exact h

theorem weightInv_run (s : State) (ops : List Op)
    (hw : ∀ op ∈ ops, opPositiveWeight op = true) (h : WeightInv s) :
    WeightInv (run s ops) := by
  induction ops generalizing s with
  | nil => exact h
  | cons op ops ih =>
    exact ih (step s op) (fun o ho => hw o (List.mem_cons_of_mem _ ho))
      (weightInv_step (hw op (List.mem_cons_self _ _)) h)

/-- C9 (amended): if every `addPool` in the call sequence used a
positive allocation weight, then in every reachable state with at least
one pool `totalAllocPoint` is nonzero, so `updatePool`'s reward
computation never divides by zero; without that restriction the
property fails (see the counterexample). -/
theorem C9_amended_no_div_by_zero (deployer : Nat) (ops : List Op)
    (hw : ∀ op ∈ ops, opPositiveWeight op = true) (pid : Nat)
    (hpid : pid < (run (initState deployer) ops).poolInfo.length) :
    (run (initState deployer) ops).totalAllocPoint ≠ 0 := by
  have hinv : WeightInv (run (initState deployer) ops) := by
    apply weightInv_run _ _ hw
    intro pid hpid
    simp [initState] at hpid
  have := hinv pid hpid
  omega

/-- Witness for the amended C9: a two-pool system built with positive
weights has a nonzero divisor. -/
theorem C9_amended_no_div_by_zero_witness :
    (∀ op ∈ opsC2, opPositiveWeight op = true) ∧
    0 < (run (initState 9) opsC2).poolInfo.length ∧
    (run (initState 9) opsC2).totalAllocPoint ≠ 0 :=
  ⟨by decide, by decide, C9_amended_no_div_by_zero 9 opsC2 (by decide) 0 (by decide)⟩
